/-
  Verification of the Money For Nothing core against its specification.

  Shallow embedding of the TypeScript source:
  * strings are lists of characters (`Str`);
  * JS numbers are rationals (`ℚ`); every amount the app handles is an
    integral multiple of 0.01, for which JS float arithmetic and
    `String()`/`parseFloat` rendering agree with exact rational arithmetic;
  * the wall clock (`getCurrentMonth()`) is an explicit `now` argument;
  * `uuidv4()` and the random version string are opaque placeholders /
    explicit arguments — no claim depends on their values;
  * `Intl`-based month formatting (`formatMonth`) is an explicit function
    argument, since its output is locale/environment dependent.

  Sources embedded: src/context/AppContext.tsx (reducer, summaries),
  src/utils/validators.ts, src/utils/csv.ts (the current tolerant variant:
  generateCSV with `---` section labels, parseCSV with case-insensitive
  section scanning), the useMonthlyReset hook, and the income modal's
  guarded delete handler.
-/
import Mathlib

namespace MoneyForNothing

/-- Strings are modelled as lists of characters. -/
abbrev Str := List Char

/-- Embed a Lean string literal. -/
def str (s : String) : Str := s.data

/-- The single-quote character (used by the CSV formula-injection escape). -/
def squote : Char := Char.ofNat 39

/-- JS whitespace as relevant to `trim`, `\s` and numeric parsing
(ASCII whitespace; the exotic Unicode space classes never occur here). -/
def jsWS (c : Char) : Bool :=
  c = ' ' || c = '\t' || c = '\n' || c = '\r' || c = '\x0b' || c = '\x0c'

/-- JS `String.prototype.trim`. -/
def trimStr (s : Str) : Str :=
  ((s.dropWhile jsWS).reverse.dropWhile jsWS).reverse

/-- JS `String.prototype.toLowerCase` (ASCII; names and keywords are ASCII). -/
def toLowerStr (s : Str) : Str := s.map Char.toLower

/-- JS `String.prototype.includes`: substring test. -/
def includesStr (hay needle : Str) : Bool :=
  needle.isPrefixOf hay ||
    match hay with
    | [] => false
    | _ :: t => includesStr t needle

/-- JS `String.prototype.startsWith`. -/
def startsWithStr (hay pre : Str) : Bool := pre.isPrefixOf hay

/-- JS `String.prototype.endsWith` for a single character. -/
def endsWithChar (s : Str) (c : Char) : Bool := s.getLast? = some c

/-- JS `String.prototype.split` on a separator character. -/
def splitOnChar (sep : Char) : Str → List Str
  | [] => [[]]
  | c :: rest =>
    match splitOnChar sep rest with
    | [] => [[]]
    | h :: t => if c = sep then [] :: h :: t else (c :: h) :: t

/-- JS `Array.prototype.join('\n')`. -/
def joinLines (lines : List Str) : Str := (lines.intersperse ['\n']).flatten

/-- JS `Array.prototype.join(',')` for one CSV row. -/
def joinComma (fields : List Str) : Str := (fields.intersperse [',']).flatten

/-- `content.replace(/\r\n/g, '\n')`: global left-to-right replacement. -/
def replaceCRLF : Str → Str
  | '\r' :: '\n' :: rest => '\n' :: replaceCRLF rest
  | c :: rest => c :: replaceCRLF rest
  | [] => []

/-- `content.replace(/\r/g, '\n')`. -/
def replaceCR (s : Str) : Str := s.map (fun c => if c = '\r' then '\n' else c)

/-- Line-ending normalization performed at the top of `parseCSV`. -/
def normalizeNewlines (s : Str) : Str := replaceCR (replaceCRLF s)

/-- JS `<` on strings: lexicographic comparison by code unit. -/
def strLt : Str → Str → Bool
  | [], [] => false
  | [], _ :: _ => true
  | _ :: _, [] => false
  | a :: as, b :: bs =>
    if a.toNat < b.toNat then true
    else if b.toNat < a.toNat then false
    else strLt as bs

/-- One decimal digit as a character. -/
def digitChar (d : ℕ) : Char := Char.ofNat (48 + d)

/-- Numeric value of a digit character. -/
def digitVal (c : Char) : ℕ := c.toNat - 48

/-- Decimal rendering of a natural number (as JS `String()` renders it). -/
def natToStr (n : ℕ) : Str :=
  if n = 0 then [digitChar 0] else (Nat.digits 10 n).reverse.map digitChar

/-- JS `String(x)` for a number `x` that is an integral multiple of 0.01 —
the only numbers the app ever serializes (validated amounts and their sums).
JS prints the shortest decimal rendering: no decimal point for integers,
no trailing fractional zero. -/
def numToString (q : ℚ) : Str :=
  let sign : Str := if q < 0 then ['-'] else []
  let cents : ℕ := (|q| * 100).num.toNat
  let intPart : Str := natToStr (cents / 100)
  let frac : ℕ := cents % 100
  if frac = 0 then sign ++ intPart
  else if frac % 10 = 0 then sign ++ intPart ++ ['.', digitChar (frac / 10)]
  else sign ++ intPart ++ ['.', digitChar (frac / 10), digitChar (frac % 10)]

/-- Value of a big-endian run of digit characters. -/
def digitsToNat (ds : Str) : ℕ := ds.foldl (fun acc c => 10 * acc + digitVal c) 0

/-- JS `parseInt(s, 10)`: optional leading whitespace and sign, then the
longest run of digits; `none` models `NaN`. -/
def parseIntJS (s : Str) : Option ℤ :=
  let s1 := s.dropWhile jsWS
  let sign : ℤ := if s1.headD ' ' = '-' then -1 else 1
  let s2 := if s1.headD ' ' = '-' ∨ s1.headD ' ' = '+' then s1.tail else s1
  let ds := s2.takeWhile Char.isDigit
  if ds = [] then none
  else some (sign * digitsToNat ds)

/-- JS `parseFloat(s)`: optional leading whitespace and sign, integer part,
optional fractional part; `none` models `NaN`.  Exponent notation and
`Infinity` forms are not modelled — the app never produces them and the
claims never feed them. -/
def parseFloatJS (s : Str) : Option ℚ :=
  let s1 := s.dropWhile jsWS
  let sign : ℚ := if s1.headD ' ' = '-' then -1 else 1
  let s2 := if s1.headD ' ' = '-' ∨ s1.headD ' ' = '+' then s1.tail else s1
  let intDs := s2.takeWhile Char.isDigit
  let rest := s2.dropWhile Char.isDigit
  match rest with
  | '.' :: r2 =>
    let fracDs := r2.takeWhile Char.isDigit
    if intDs = [] ∧ fracDs = [] then none
    else some (sign *
      ((digitsToNat intDs : ℚ) + (digitsToNat fracDs : ℚ) / 10 ^ fracDs.length))
  | _ => if intDs = [] then none else some (sign * (digitsToNat intDs : ℚ))

/-- JS `x || d` for a parsed number `x` (both `NaN` and `0` are falsy). -/
def jsOrElse (v : Option ℚ) (d : ℚ) : ℚ :=
  match v with
  | none => d
  | some q => if q = 0 then d else q

/-- JS `Math.round`: round half toward positive infinity. -/
def jsRound (q : ℚ) : ℤ := ⌊q + 1 / 2⌋

/-! ## Data model (src/types/index.ts) -/

/-- An income record.  `paycheckNumber` is `some 1`/`some 2` for the two
protected paychecks and `none` for other income. -/
structure Income where
  id : Str
  name : Str
  defaultAmount : ℚ
  currentAmount : ℚ
  paycheckNumber : Option ℕ
deriving DecidableEq, Repr

/-- A bill record. -/
structure Bill where
  id : Str
  name : Str
  amount : ℚ
  paid : Bool
deriving DecidableEq, Repr

/-- A savings record. -/
structure Savings where
  id : Str
  name : Str
  amount : ℚ
deriving DecidableEq, Repr

/-- One monthly savings-total snapshot. -/
structure SavingsHistoryEntry where
  month : Str
  total : ℚ
deriving DecidableEq, Repr

/-- Application state singleton. -/
structure AppState where
  lastSessionMonth : Str
  versionString : Str
  hasCompletedSetup : Bool
  savingsHistory : List SavingsHistoryEntry
deriving DecidableEq, Repr

/-- The aggregate root. -/
structure AppData where
  income : List Income
  bills : List Bill
  savings : List Savings
  appState : AppState
deriving DecidableEq, Repr

/-! ## Validation layer (src/utils/validators.ts, zod schemas) -/

/-- A character allowed by `NAME_PATTERN = /^[a-zA-Z0-9\s-]+$/`. -/
def isNamePatternChar (c : Char) : Bool :=
  c.isAlpha || c.isDigit || jsWS c || c = '-'

/-- `nameSchema`: nonempty, at most 32 characters, matching `NAME_PATTERN`
(the subsequent zod `transform` trims the accepted value). -/
def validateName (s : Str) : Bool :=
  decide (1 ≤ s.length) && decide (s.length ≤ 32) && s.all isNamePatternChar

/-- zod `multipleOf(0.01)`: the value is an integral multiple of one cent. -/
def isTwoDecimal (q : ℚ) : Bool := decide ((q * 100).den = 1)

/-- `amountSchema`: positive, at most two decimal places, capped. -/
def validateAmount (q : ℚ) : Bool :=
  decide (0 < q) && isTwoDecimal q && decide (q ≤ (999999999.99 : ℚ))

/-- `nonNegativeAmountSchema`: like `amountSchema` but zero is allowed. -/
def validateNonNegativeAmount (q : ℚ) : Bool :=
  decide (0 ≤ q) && isTwoDecimal q && decide (q ≤ (999999999.99 : ℚ))

/-! ## Reducer and derived summaries (src/context/AppContext.tsx) -/

/-- JS `array.slice(-12)`: keep the last 12 elements. -/
def sliceLast12 {α : Type} (l : List α) : List α := l.drop (l.length - 12)

/-- `savings.reduce((sum, sav) => sum + sav.amount, 0)`. -/
def savingsTotal (savings : List Savings) : ℚ :=
  savings.foldl (fun sum sav => sum + sav.amount) 0

/-- `income.reduce((sum, inc) => sum + inc.currentAmount, 0)`. -/
def incomeTotal (income : List Income) : ℚ :=
  income.foldl (fun sum inc => sum + inc.currentAmount) 0

/-- Derived bills summary values. -/
structure BillsSummary where
  totalDue : ℚ
  totalPaid : ℚ
  totalRemaining : ℚ
  progress : ℤ
deriving DecidableEq, Repr

/-- The `billsSummary` computed value of the provider. -/
def billsSummary (bills : List Bill) : BillsSummary :=
  let totalDue := bills.foldl (fun sum bill => sum + bill.amount) 0
  let totalPaid := (bills.filter (fun bill => bill.paid)).foldl
    (fun sum bill => sum + bill.amount) 0
  let totalRemaining := totalDue - totalPaid
  let progress := if totalDue > 0 then jsRound (totalPaid / totalDue * 100) else 0
  ⟨totalDue, totalPaid, totalRemaining, progress⟩

/-- Partial update object for `UPDATE_BILL`. -/
structure BillUpdates where
  name : Option Str
  amount : Option ℚ
  paid : Option Bool
deriving DecidableEq, Repr

/-- Partial update object for `UPDATE_SAVINGS`. -/
structure SavingsUpdates where
  name : Option Str
  amount : Option ℚ
deriving DecidableEq, Repr

/-- The action union of the reducer (src/types/index.ts `AppAction`). -/
inductive AppAction where
  | setIncome (payload : List Income)
  | updateIncome (id : Str) (currentAmount : ℚ)
  | updateIncomeDefault (id : Str) (defaultAmount : ℚ)
  | updateIncomeName (id : Str) (name : Str)
  | addIncome (payload : Income)
  | deleteIncome (id : Str)
  | resetIncomeToDefaults
  | setBills (payload : List Bill)
  | addBill (payload : Bill)
  | updateBill (id : Str) (updates : BillUpdates)
  | toggleBillPaid (id : Str)
  | deleteBill (id : Str)
  | resetAllBillsUnpaid
  | setSavings (payload : List Savings)
  | addSavings (payload : Savings)
  | updateSavings (id : Str) (updates : SavingsUpdates)
  | deleteSavings (id : Str)
  | setAppState (payload : AppState)
  | updateLastSessionMonth (payload : Str)
  | setSetupCompleted (payload : Bool)
  | setVersionString (payload : Str)
  | addSavingsHistoryEntry (payload : SavingsHistoryEntry)
  | setSavingsHistory (payload : List SavingsHistoryEntry)
  | loadAllData (payload : AppData)
  | importData (payload : AppData)
  | performMonthlyReset

/-- Apply a `Partial<Omit<Bill, 'id'>>` spread. -/
def applyBillUpdates (bill : Bill) (u : BillUpdates) : Bill :=
  { bill with
    name := u.name.getD bill.name
    amount := u.amount.getD bill.amount
    paid := u.paid.getD bill.paid }

/-- Apply a `Partial<Omit<Savings, 'id'>>` spread. -/
def applySavingsUpdates (sav : Savings) (u : SavingsUpdates) : Savings :=
  { sav with
    name := u.name.getD sav.name
    amount := u.amount.getD sav.amount }

/-- `appReducer` from src/context/AppContext.tsx.  `now` stands for
`getCurrentMonth()` (the wall clock read inside `PERFORM_MONTHLY_RESET`). -/
def appReducer (now : Str) (state : AppData) : AppAction → AppData
  | .setIncome payload => { state with income := payload }
  | .updateIncome id currentAmount =>
    { state with income := state.income.map (fun inc =>
        if inc.id = id then { inc with currentAmount := currentAmount } else inc) }
  | .updateIncomeDefault id defaultAmount =>
    { state with income := state.income.map (fun inc =>
        if inc.id = id then { inc with defaultAmount := defaultAmount } else inc) }
  | .updateIncomeName id name =>
    { state with income := state.income.map (fun inc =>
        if inc.id = id then { inc with name := name } else inc) }
  | .addIncome payload => { state with income := state.income ++ [payload] }
  | .deleteIncome id =>
    { state with income := state.income.filter (fun inc => inc.id ≠ id) }
  | .resetIncomeToDefaults =>
    { state with income := state.income.map (fun inc =>
        { inc with currentAmount := inc.defaultAmount }) }
  | .setBills payload => { state with bills := payload }
  | .addBill payload => { state with bills := state.bills ++ [payload] }
  | .updateBill id updates =>
    { state with bills := state.bills.map (fun bill =>
        if bill.id = id then applyBillUpdates bill updates else bill) }
  | .toggleBillPaid id =>
    { state with bills := state.bills.map (fun bill =>
        if bill.id = id then { bill with paid := !bill.paid } else bill) }
  | .deleteBill id =>
    { state with bills := state.bills.filter (fun bill => bill.id ≠ id) }
  | .resetAllBillsUnpaid =>
    { state with bills := state.bills.map (fun bill => { bill with paid := false }) }
  | .setSavings payload => { state with savings := payload }
  | .addSavings payload => { state with savings := state.savings ++ [payload] }
  | .updateSavings id updates =>
    { state with savings := state.savings.map (fun sav =>
        if sav.id = id then applySavingsUpdates sav updates else sav) }
  | .deleteSavings id =>
    { state with savings := state.savings.filter (fun sav => sav.id ≠ id) }
  | .setAppState payload => { state with appState := payload }
  | .updateLastSessionMonth payload =>
    { state with appState := { state.appState with lastSessionMonth := payload } }
  | .setSetupCompleted payload =>
    { state with appState := { state.appState with hasCompletedSetup := payload } }
  | .setVersionString payload =>
    { state with appState := { state.appState with versionString := payload } }
  | .addSavingsHistoryEntry payload =>
    { state with appState := { state.appState with
        savingsHistory := sliceLast12 (state.appState.savingsHistory ++ [payload]) } }
  | .setSavingsHistory payload =>
    { state with appState := { state.appState with savingsHistory := payload } }
  | .loadAllData payload => payload
  | .importData payload => payload
  | .performMonthlyReset =>
    let total := savingsTotal state.savings
    let historyEntry : SavingsHistoryEntry :=
      ⟨state.appState.lastSessionMonth, total⟩
    let updatedHistory :=
      sliceLast12 (state.appState.savingsHistory ++ [historyEntry])
    { state with
      income := state.income.map (fun inc =>
        { inc with currentAmount := inc.defaultAmount })
      bills := state.bills.map (fun bill => { bill with paid := false })
      appState := { state.appState with
        lastSessionMonth := now
        savingsHistory := updatedHistory } }

/-- `createInitialState`; the two uuids, the wall-clock month and the random
version string are explicit arguments. -/
def createInitialState (id1 id2 now vs : Str) : AppData :=
  { income :=
      [ ⟨id1, str "Paycheck 1", 0, 0, some 1⟩,
        ⟨id2, str "Paycheck 2", 0, 0, some 2⟩ ]
    bills := []
    savings := []
    appState :=
      { lastSessionMonth := now
        versionString := vs
        hasCompletedSetup := false
        savingsHistory := [] } }

/-! ## Monthly-reset hook (useMonthlyReset) and the income modal guard -/

/-- `checkNeedsMonthlyReset` from the provider. -/
def checkNeedsMonthlyReset (now : Str) (state : AppData) : Bool :=
  state.appState.lastSessionMonth ≠ now

/-- `checkAndReset` from the useMonthlyReset hook: perform the reset only
when the session month differs from the wall-clock month. -/
def checkAndReset (now : Str) (state : AppData) : AppData :=
  if checkNeedsMonthlyReset now state then appReducer now state .performMonthlyReset
  else state

/-- `handleDeleteIncome` from the income modal: refuse to delete the two
main paychecks, otherwise dispatch `DELETE_INCOME`. -/
def handleDeleteIncome (now : Str) (item : Income) (state : AppData) : AppData :=
  if item.paycheckNumber ≠ none then state
  else appReducer now state (.deleteIncome item.id)

/-! ## CSV serialization (src/utils/csv.ts, generateCSV) -/

/-- `escaped.replace(/"/g, '""')`: double every double quote. -/
def escapeQuotes (s : Str) : Str :=
  s.flatMap (fun c => if c = '"' then ['"', '"'] else [c])

/-- `/^[=+\-@]/.test(escaped)`. -/
def startsWithFormulaChar (s : Str) : Bool :=
  match s with
  | [] => false
  | c :: _ => c = '=' || c = '+' || c = '-' || c = '@'

/-- `/[,"\n\r]/.test(escaped)`. -/
def needsQuoting (s : Str) : Bool :=
  s.any (fun c => c = ',' || c = '"' || c = '\n' || c = '\r')

/-- `sanitizeCSVValue` applied to an already-stringified value. -/
def sanitizeCSVValue (stringValue : Str) : Str :=
  let escaped := escapeQuotes stringValue
  if startsWithFormulaChar escaped then '"' :: squote :: escaped ++ ['"']
  else if needsQuoting escaped then '"' :: escaped ++ ['"']
  else escaped

/-- `String(inc.paycheckNumber ?? '')`. -/
def paycheckNumberToString (pn : Option ℕ) : Str :=
  match pn with
  | none => []
  | some n => natToStr n

/-- One serialized income row. -/
def incomeRow (inc : Income) : Str :=
  joinComma
    [ sanitizeCSVValue inc.name,
      sanitizeCSVValue (numToString inc.defaultAmount),
      sanitizeCSVValue (numToString inc.currentAmount),
      sanitizeCSVValue (paycheckNumberToString inc.paycheckNumber) ]

/-- One serialized bill row. -/
def billRow (bill : Bill) : Str :=
  joinComma
    [ sanitizeCSVValue bill.name,
      sanitizeCSVValue (numToString bill.amount),
      sanitizeCSVValue (if bill.paid then str "Yes" else str "No") ]

/-- One serialized savings row. -/
def savingsRow (sav : Savings) : Str :=
  joinComma [sanitizeCSVValue sav.name, sanitizeCSVValue (numToString sav.amount)]

/-- One serialized savings-history row. -/
def historyRow (entry : SavingsHistoryEntry) : Str :=
  joinComma [sanitizeCSVValue entry.month, sanitizeCSVValue (numToString entry.total)]

/-- The `lines` array built by `generateCSV`.  `fmtMonth` stands for the
`Intl`-based `formatMonth` helper. -/
def generateCSVLines (fmtMonth : Str → Str) (data : AppData) : List Str :=
  [str "Money For Nothing Export - " ++ fmtMonth data.appState.lastSessionMonth, []]
  ++ [str "--- INCOME ---", str "Name,Default Amount,Current Amount,Paycheck Number"]
  ++ data.income.map incomeRow ++ [[]]
  ++ [str "--- BILLS ---", str "Name,Amount,Paid"]
  ++ data.bills.map billRow ++ [[]]
  ++ [str "--- SAVINGS ---", str "Name,Amount"]
  ++ data.savings.map savingsRow ++ [[]]
  ++ (if 0 < data.appState.savingsHistory.length then
        [str "--- SAVINGS HISTORY ---", str "Month,Total"]
        ++ data.appState.savingsHistory.map historyRow
      else [])

/-- `generateCSV`: the joined text. -/
def generateCSV (fmtMonth : Str → Str) (data : AppData) : Str :=
  joinLines (generateCSVLines fmtMonth data)

/-! ## CSV parsing (src/utils/csv.ts, parseCSV — current tolerant variant) -/

/-- `result.replace(/""/g, '"')`: global left-to-right undoubling. -/
def unescapeQuotes : Str → Str
  | '"' :: '"' :: rest => '"' :: unescapeQuotes rest
  | c :: rest => c :: unescapeQuotes rest
  | [] => []

/-- `parseCSVValue`: trim, strip one layer of surrounding quotes, undouble
quotes, strip the leading single-quote injection guard. -/
def parseCSVValue (value : Str) : Str :=
  let r1 := trimStr value
  let r2 :=
    if startsWithStr r1 ['"'] ∧ endsWithChar r1 '"' then (r1.drop 1).dropLast
    else r1
  let r3 := unescapeQuotes r2
  if startsWithStr r3 [squote] then r3.drop 1 else r3

/-- The character loop of `parseCSVLine`.  An escaped (doubled) quote inside
a quoted region is consumed in one step, mirroring the `i++` skip. -/
def parseCSVLineAux : Str → Bool → Str → List Str
  | [], _, current => [parseCSVValue current]
  | '"' :: '"' :: rest2, true, current => parseCSVLineAux rest2 true (current ++ ['"'])
  | '"' :: rest, inQuotes, current =>
    if inQuotes then parseCSVLineAux rest false (current ++ ['"'])
    else parseCSVLineAux rest true (current ++ ['"'])
  | ',' :: rest, inQuotes, current =>
    if inQuotes then parseCSVLineAux rest inQuotes (current ++ [','])
    else parseCSVValue current :: parseCSVLineAux rest inQuotes []
  | c :: rest, inQuotes, current => parseCSVLineAux rest inQuotes (current ++ [c])

/-- `parseCSVLine`: split a line into parsed fields. -/
def parseCSVLine (line : Str) : List Str := parseCSVLineAux line false []

/-- The `currentSection` scanning state ('' is `noSection`). -/
inductive CsvSection where
  | noSection
  | income
  | bills
  | savings
  | history
  | summary
deriving DecidableEq, Repr

/-- The mutable locals of the `parseCSV` scanning loop. -/
structure ScanState where
  currentSection : CsvSection
  headerSkipped : Bool
  income : List Income
  bills : List Bill
  savings : List Savings
  savingsHistory : List SavingsHistoryEntry
  lastSessionMonth : Str
deriving DecidableEq, Repr

/-- The initial scanning state. -/
def initScanState : ScanState := ⟨.noSection, false, [], [], [], [], []⟩

/-- `/^\d{4}-\d{2}$/.test(month)`. -/
def isMonthFormat (s : Str) : Bool :=
  match s with
  | [a, b, c, d, '-', e, f] =>
    a.isDigit && b.isDigit && c.isDigit && d.isDigit && e.isDigit && f.isDigit
  | _ => false

/-- The id every record created by the embedded `parseCSV` carries, standing
for a fresh `uuidv4()`; no claim depends on id values. -/
def uuidPlaceholder : Str := []

/-- One iteration of the `parseCSV` line loop (the line has already been
trimmed by the `.map(line => line.trim())` preprocessing). -/
def processLine (st : ScanState) (line : Str) : ScanState :=
  if line = [] then st
  else
    let lineLower := toLowerStr line
    let isSectionHeader :=
      includesStr line (str "===") || includesStr line (str "---")
    if isSectionHeader ∧ includesStr lineLower (str "savings history") then
      { st with currentSection := .history, headerSkipped := false }
    else if isSectionHeader ∧ includesStr lineLower (str "income") then
      { st with currentSection := .income, headerSkipped := false }
    else if isSectionHeader ∧ includesStr lineLower (str "bills") then
      { st with currentSection := .bills, headerSkipped := false }
    else if isSectionHeader ∧ includesStr lineLower (str "savings") then
      { st with currentSection := .savings, headerSkipped := false }
    else if isSectionHeader ∧ includesStr lineLower (str "summary") then
      { st with currentSection := .summary, headerSkipped := false }
    else if ¬ isSectionHeader ∧
        (includesStr lineLower (str "money for nothing") ||
         includesStr lineLower (str "export")) then st
    else if ¬ st.headerSkipped ∧ st.currentSection ≠ .noSection ∧
        (startsWithStr lineLower (str "name") ||
         startsWithStr lineLower (str "month") ||
         startsWithStr lineLower (str "total ")) then
      { st with headerSkipped := true }
    else if ¬ st.headerSkipped ∧ st.currentSection = .income ∧
        includesStr lineLower (str "default") ∧
        includesStr lineLower (str "amount") then
      { st with headerSkipped := true }
    else if ¬ st.headerSkipped ∧ st.currentSection = .bills ∧
        includesStr lineLower (str "paid") then
      { st with headerSkipped := true }
    else
      let values := parseCSVLine line
      if values.length = 0 ∨ (values.length = 1 ∧ values.headD [] = []) then st
      else
        match st.currentSection with
        | .income =>
          match values with
          | v0 :: v1 :: _ =>
            if v0 ≠ [] then
              let v3 := values.getD 3 []
              let paycheckNum : Option ℕ :=
                if v3 = [] then none
                else
                  match parseIntJS v3 with
                  | some 1 => some 1
                  | some 2 => some 2
                  | _ => none
              let defaultAmt := jsOrElse (parseFloatJS v1) 0
              let currentAmt :=
                if 3 ≤ values.length then
                  jsOrElse (parseFloatJS (values.getD 2 [])) defaultAmt
                else defaultAmt
              { st with income := st.income ++
                  [⟨uuidPlaceholder, v0, defaultAmt, currentAmt, paycheckNum⟩] }
            else st
          | _ => st
        | .bills =>
          match values with
          | v0 :: v1 :: _ =>
            if v0 ≠ [] then
              let paidValue := toLowerStr (values.getD 2 [])
              let paid :=
                paidValue = str "yes" || paidValue = str "true" ||
                paidValue = str "1" || paidValue = str "x"
              { st with bills := st.bills ++
                  [⟨uuidPlaceholder, v0, jsOrElse (parseFloatJS v1) 0, paid⟩] }
            else st
          | _ => st
        | .savings =>
          match values with
          | v0 :: v1 :: _ =>
            if v0 ≠ [] then
              { st with savings := st.savings ++
                  [⟨uuidPlaceholder, v0, jsOrElse (parseFloatJS v1) 0⟩] }
            else st
          | _ => st
        | .history =>
          match values with
          | v0 :: v1 :: _ =>
            if isMonthFormat v0 then
              { st with
                savingsHistory := st.savingsHistory ++
                  [⟨v0, jsOrElse (parseFloatJS v1) 0⟩]
                lastSessionMonth :=
                  if st.lastSessionMonth = [] ∨ strLt st.lastSessionMonth v0 then v0
                  else st.lastSessionMonth }
            else st
          | _ => st
        | .summary => st
        | .noSection => st

/-- Normalize, split into trimmed lines, and run the scanning loop. -/
def scanCSV (content : Str) : ScanState :=
  ((splitOnChar '\n' (normalizeNewlines content)).map trimStr).foldl
    processLine initScanState

/-- The two default paycheck records synthesized when an import finds no
income rows. -/
def defaultPaychecks : List Income :=
  [ ⟨uuidPlaceholder, str "Paycheck 1", 0, 0, some 1⟩,
    ⟨uuidPlaceholder, str "Paycheck 2", 0, 0, some 2⟩ ]

/-- `parseCSV` (current variant).  `now` stands for the wall-clock fallback
month and `vs` for the freshly generated version string.  The surrounding
`try`/`catch` returns `null` only when the body throws; the body is total
here, so the embedded result is always `some`. -/
def parseCSV (now vs : Str) (content : Str) : Option AppData :=
  let st := scanCSV content
  let lastSessionMonth :=
    if st.lastSessionMonth = [] then now else st.lastSessionMonth
  let income := if st.income = [] then defaultPaychecks else st.income
  some
    { income := income
      bills := st.bills
      savings := st.savings
      appState :=
        { lastSessionMonth := lastSessionMonth
          versionString := vs
          hasCompletedSetup := true
          savingsHistory := st.savingsHistory } }

/-! ## Reimportability predicates and concrete vectors (for the claims) -/

/-- The id-independent content of an income record (ids are regenerated on
import, so round-tripping is compared on these fields). -/
def incomeContent (i : Income) : Str × ℚ × ℚ × Option ℕ :=
  (i.name, i.defaultAmount, i.currentAmount, i.paycheckNumber)

/-- The id-independent content of a bill record. -/
def billContent (b : Bill) : Str × ℚ × Bool := (b.name, b.amount, b.paid)

/-- The id-independent content of a savings record. -/
def savingsContent (s : Savings) : Str × ℚ := (s.name, s.amount)

/-- The record produced when `parseCSV` re-reads a serialized income row. -/
def reimportIncome (i : Income) : Income :=
  ⟨uuidPlaceholder, i.name, i.defaultAmount, i.currentAmount, i.paycheckNumber⟩

/-- The record produced when `parseCSV` re-reads a serialized bill row. -/
def reimportBill (b : Bill) : Bill := ⟨uuidPlaceholder, b.name, b.amount, b.paid⟩

/-- The record produced when `parseCSV` re-reads a serialized savings row. -/
def reimportSavings (s : Savings) : Savings := ⟨uuidPlaceholder, s.name, s.amount⟩

/-- The §3 name character set `[A-Za-z0-9 -]`. -/
def strictNameChars : Str :=
  str "ABCDEFGHIJKLMNOPQRSTUVWXYZabcdefghijklmnopqrstuvwxyz0123456789 -"

/-- Membership in the §3 name character set. -/
def isStrictNameChar (c : Char) : Bool := decide (c ∈ strictNameChars)

/-- Digit characters. -/
def digitCharsStr : Str := str "0123456789"

/-- A name as the Validation Layer stores it (schema-accepted, trimmed by
the zod transform, drawn from the §3 charset) that additionally avoids the
parser-reserved substrings `export`, `money for nothing` (case-insensitive)
and `---`. -/
def reimportableName (s : Str) : Bool :=
  validateName s && s.all isStrictNameChar && decide (trimStr s = s)
  && !(includesStr (toLowerStr s) (str "export"))
  && !(includesStr (toLowerStr s) (str "money for nothing"))
  && !(includesStr s (str "---"))

/-- Schema-valid, reimportable income record. -/
def reimportableIncome (i : Income) : Bool :=
  reimportableName i.name && validateAmount i.defaultAmount
  && validateAmount i.currentAmount
  && (match i.paycheckNumber with
      | none => true
      | some 1 => true
      | some 2 => true
      | some _ => false)

/-- Schema-valid, reimportable bill record. -/
def reimportableBill (b : Bill) : Bool :=
  reimportableName b.name && validateAmount b.amount

/-- Schema-valid, reimportable savings record. -/
def reimportableSavings (s : Savings) : Bool :=
  reimportableName s.name && validateNonNegativeAmount s.amount

/-- Well-formed savings-history entry: `YYYY-MM` month and a non-negative
two-decimal total (history totals are sums of validated savings amounts). -/
def reimportableHistory (e : SavingsHistoryEntry) : Bool :=
  isMonthFormat e.month && decide (0 ≤ e.total) && isTwoDecimal e.total

/-- What the round trip needs from the `Intl`-based month formatter: a
nonempty single trimmed line free of `\n`, `\r` and section delimiters
(every real `Intl` month-year rendering satisfies this). -/
def fmtMonthSafe (m : Str) : Bool :=
  decide (m ≠ []) && decide (trimStr m = m)
  && decide ('\n' ∉ m) && decide ('\r' ∉ m)
  && !(includesStr m (str "===")) && !(includesStr m (str "---"))

/-- A CSV field shape the `parseCSVLine` loop handles transparently: either
quote- and comma-free, or fully quoted with a quote-free interior. -/
def goodField (f : Str) : Prop :=
  (∀ c ∈ f, c ≠ '"' ∧ c ≠ ',') ∨
  (∃ inner, f = '"' :: inner ++ ['"'] ∧ ∀ c ∈ inner, c ≠ '"')

/-- A serialized field shape that every scanning heuristic of `parseCSV`
passes over: parseable transparently, newline-free, free of the section
delimiters, and free of the skip keywords in lowercase; with non-whitespace
boundary characters so the line-level `trim` keeps rows intact. -/
def safeField (F : Str) : Prop :=
  goodField F
  ∧ '\n' ∉ F ∧ '\r' ∉ F
  ∧ includesStr F (str "===") = false
  ∧ includesStr F (str "---") = false
  ∧ includesStr (toLowerStr F) (str "export") = false
  ∧ includesStr (toLowerStr F) (str "money for nothing") = false
  ∧ (∀ c, F.head? = some c → jsWS c = false)
  ∧ (∀ c, F.getLast? = some c → jsWS c = false)

/-- Concrete schema-valid aggregate exercising every serialized section. -/
def exRoundTripData : AppData :=
  { income := [⟨str "i1", str "Paycheck 1", 2500, (180055 : ℚ) / 100, some 1⟩]
    bills := [⟨str "b1", str "Rent", 1200, true⟩]
    savings := [⟨str "s1", str "Emergency Fund", (500025 : ℚ) / 100⟩]
    appState := ⟨str "2024-11", str "v0", true, [⟨str "2024-10", 4000⟩]⟩ }

/-- The example state of the spec's rollover-correctness test vector. -/
def exResetState : AppData :=
  { income :=
      [ ⟨str "i1", str "Paycheck 1", 2500, 1800, some 1⟩,
        ⟨str "i2", str "Paycheck 2", 2500, 2500, some 2⟩ ]
    bills :=
      [ ⟨str "b1", str "Rent", 1200, true⟩,
        ⟨str "b2", str "Internet", 150, false⟩ ]
    savings := [⟨str "s1", str "Emergency", 5000⟩]
    appState := ⟨str "2024-11", str "v0.1.a", true, []⟩ }

/-- Fresh-install state used by several concrete checks. -/
def exInitState : AppData :=
  createInitialState (str "id1") (str "id2") (str "2025-10") (str "v0")

/-- A hand-edited CSV carrying thirteen savings-history rows. -/
def thirteenHistoryCSV : Str :=
  joinLines
    ([str "--- SAVINGS ---", str "Name,Amount", str "Fund,1",
      str "--- SAVINGS HISTORY ---", str "Month,Total"]
      ++ List.replicate 13 (str "2024-01,5"))

/-- Constant month formatter used by the concrete vectors. -/
def fmtDec : Str → Str := fun _ => str "December 2024"

/-- A schema-valid aggregate whose only savings record is named `export`. -/
def exportNameData : AppData :=
  { income := [⟨str "i1", str "Paycheck 1", 2500, 2500, some 1⟩]
    bills := []
    savings := [⟨str "s1", str "export", 100⟩]
    appState := ⟨str "2024-11", str "v0.1.a", true, []⟩ }

/-! ## String toolkit lemmas -/

theorem includes_of_isPrefixOf {h n : Str} (hp : n.isPrefixOf h = true) :
    includesStr h n = true := by
  cases h <;> simp [includesStr, hp]

theorem includes_tail {t n : Str} (c : Char) (h : includesStr t n = true) :
    includesStr (c :: t) n = true := by
  simp [includesStr, h]

theorem mem_of_includes {s r : Str} {c : Char}
    (h : includesStr s (c :: r) = true) : c ∈ s := by
  induction s with
  | nil => simp [includesStr, List.isPrefixOf] at h
  | cons d t ih =>
    simp only [includesStr, Bool.or_eq_true] at h
    rcases h with h | h
    · rw [List.isPrefixOf_iff_prefix] at h
      obtain ⟨u, hu⟩ := h
      rw [← hu]
      exact List.mem_cons_self c _
    · exact List.mem_cons_of_mem d (ih h)

theorem includes_false_of_not_mem {s r : Str} {c : Char} (h : c ∉ s) :
    includesStr s (c :: r) = false := by
  cases hinc : includesStr s (c :: r) with
  | false => rfl
  | true => exact absurd (mem_of_includes hinc) h

theorem includes_append_cases {a b n : Str}
    (h : includesStr (a ++ b) n = true) :
    includesStr a n = true ∨ includesStr b n = true ∨
    ∃ n1 n2, n = n1 ++ n2 ∧ n1 ≠ [] ∧ n2 ≠ [] ∧
      (∃ pre, a = pre ++ n1) ∧ n2.isPrefixOf b = true := by
  induction a with
  | nil => exact Or.inr (Or.inl (by simpa using h))
  | cons c a2 ih =>
    simp only [List.cons_append, includesStr, Bool.or_eq_true] at h
    rcases h with h | h
    · rw [List.isPrefixOf_iff_prefix] at h
      by_cases hn : n = []
      · subst hn
        exact Or.inl (includes_of_isPrefixOf (by simp [List.isPrefixOf]))
      · obtain ⟨t, ht⟩ := h
        have ht2 : (c :: a2) ++ b = n ++ t := ht.symm
        rcases List.append_eq_append_iff.mp ht2 with ⟨a3, ha3, hb3⟩ | ⟨c3, hc3, _⟩
        · by_cases ha3nil : a3 = []
          · subst ha3nil
            refine Or.inl (includes_of_isPrefixOf ?_)
            rw [List.isPrefixOf_iff_prefix]
            exact ⟨[], by simp [ha3]⟩
          · refine Or.inr (Or.inr ⟨c :: a2, a3, by simpa using ha3, by simp,
              ha3nil, ⟨[], by simp⟩, ?_⟩)
            rw [List.isPrefixOf_iff_prefix]
            exact ⟨t, hb3.symm⟩
        · refine Or.inl (includes_of_isPrefixOf ?_)
          rw [List.isPrefixOf_iff_prefix]
          exact ⟨c3, hc3.symm⟩
    · rcases ih h with h1 | h1 | ⟨n1, n2, hsplit, hn1, hn2, ⟨pre, hpre⟩, hpfx⟩
      · exact Or.inl (includes_tail c h1)
      · exact Or.inr (Or.inl h1)
      · exact Or.inr (Or.inr ⟨n1, n2, hsplit, hn1, hn2,
          ⟨c :: pre, by rw [hpre]; rfl⟩, hpfx⟩)

theorem includes_cons_head_ne {b n : Str} {c : Char} (hne : n ≠ [])
    (hh : n.headD ' ' ≠ c) : includesStr (c :: b) n = includesStr b n := by
  cases n with
  | nil => exact absurd rfl hne
  | cons d r =>
    have hd : d ≠ c := by simpa using hh
    simp [includesStr, List.isPrefixOf, hd, Bool.and_eq_true, beq_iff_eq]

theorem joinComma_nil : joinComma [] = [] := rfl

theorem joinComma_singleton (f : Str) : joinComma [f] = f := by
  simp [joinComma, List.intersperse]

theorem joinComma_cons_cons (f g : Str) (t : List Str) :
    joinComma (f :: g :: t) = f ++ ',' :: joinComma (g :: t) := by
  simp [joinComma, List.intersperse]

theorem joinComma_not_includes (fields : List Str) (n : Str)
    (hc : ',' ∉ n) (hne : n ≠ [])
    (hf : ∀ f ∈ fields, includesStr f n = false) :
    includesStr (joinComma fields) n = false := by
  induction fields with
  | nil =>
    cases n with
    | nil => exact absurd rfl hne
    | cons d r => simp [joinComma, includesStr, List.isPrefixOf]
  | cons f rest ih =>
    cases rest with
    | nil =>
      rw [joinComma_singleton]
      exact hf f (List.mem_cons_self f [])
    | cons g t =>
      rw [joinComma_cons_cons]
      cases hinc : includesStr (f ++ ',' :: joinComma (g :: t)) n with
      | false => rfl
      | true =>
        exfalso
        rcases includes_append_cases hinc with h1 | h1 | ⟨n1, n2, hsplit, _, hn2, _, hpfx⟩
        · rw [hf f (List.mem_cons_self f _)] at h1
          cases h1
        · have hcomma : n.headD ' ' ≠ ',' := by
            intro habs
            cases n with
            | nil => exact hne rfl
            | cons d r =>
              exact hc (by simp only [List.headD] at habs; rw [habs]; exact List.mem_cons_self _ _)
          rw [includes_cons_head_ne hne hcomma] at h1
          have := ih (fun x hx => hf x (List.mem_cons_of_mem f hx))
          rw [this] at h1
          cases h1
        · cases n2 with
          | nil => exact hn2 rfl
          | cons d r =>
            rw [List.isPrefixOf_iff_prefix] at hpfx
            obtain ⟨u, hu⟩ := hpfx
            have hd : d = ',' := by
              have := congrArg (fun l => l.headD ' ') hu
              simpa using this
            apply hc
            rw [hsplit, hd] at *
            exact List.mem_append_right n1 (List.mem_cons_self _ _)

theorem splitOnChar_no_sep {sep : Char} {s : Str} (h : sep ∉ s) :
    splitOnChar sep s = [s] := by
  induction s with
  | nil => rfl
  | cons c r ih =>
    have hc : c ≠ sep := fun habs => h (habs ▸ List.mem_cons_self c r)
    have hr : sep ∉ r := fun habs => h (List.mem_cons_of_mem c habs)
    rw [splitOnChar, ih hr]
    simp [hc]

theorem splitOnChar_ne_nil (sep : Char) (s : Str) : splitOnChar sep s ≠ [] := by
  cases s with
  | nil => simp [splitOnChar]
  | cons c r =>
    rw [splitOnChar]
    cases splitOnChar sep r with
    | nil => simp
    | cons h t =>
      by_cases hc : c = sep <;> simp [hc]

theorem splitOnChar_append_sep {sep : Char} {a rest : Str} (h : sep ∉ a) :
    splitOnChar sep (a ++ sep :: rest) = a :: splitOnChar sep rest := by
  induction a with
  | nil =>
    rw [List.nil_append, splitOnChar]
    cases hs : splitOnChar sep rest with
    | nil => exact absurd hs (splitOnChar_ne_nil sep rest)
    | cons x t => simp
  | cons c a2 ih =>
    have hc : c ≠ sep := fun habs => h (habs ▸ List.mem_cons_self c a2)
    have ha2 : sep ∉ a2 := fun habs => h (List.mem_cons_of_mem c habs)
    rw [List.cons_append, splitOnChar, ih ha2]
    simp [hc]

theorem joinLines_cons_cons (f g : Str) (t : List Str) :
    joinLines (f :: g :: t) = f ++ '\n' :: joinLines (g :: t) := by
  simp [joinLines, List.intersperse]

theorem joinLines_singleton (f : Str) : joinLines [f] = f := by
  simp [joinLines, List.intersperse]

theorem splitOnChar_joinLines (L : List Str) (hne : L ≠ [])
    (h : ∀ l ∈ L, '\n' ∉ l) : splitOnChar '\n' (joinLines L) = L := by
  induction L with
  | nil => exact absurd rfl hne
  | cons f rest ih =>
    cases rest with
    | nil =>
      rw [joinLines_singleton]
      exact splitOnChar_no_sep (h f (List.mem_cons_self f []))
    | cons g t =>
      rw [joinLines_cons_cons,
        splitOnChar_append_sep (h f (List.mem_cons_self f _)),
        ih (by simp) (fun l hl => h l (List.mem_cons_of_mem f hl))]

theorem replaceCRLF_cons_ne {c : Char} {r : Str} (hc : c ≠ '\r') :
    replaceCRLF (c :: r) = c :: replaceCRLF r := by
  rw [replaceCRLF.eq_def]
  split
  · next heq =>
    have h1 : c = '\r' := by injection heq
    exact absurd h1 hc
  · next heq =>
    injection heq with h1 h2
    rw [h1, h2]
  · next heq => simp at heq

theorem replaceCRLF_eq_self {s : Str} (h : '\r' ∉ s) : replaceCRLF s = s := by
  induction s with
  | nil => rfl
  | cons c r ih =>
    have hc : c ≠ '\r' := fun habs => h (habs ▸ List.mem_cons_self c r)
    have hr : '\r' ∉ r := fun habs => h (List.mem_cons_of_mem c habs)
    rw [replaceCRLF_cons_ne hc, ih hr]

theorem replaceCR_eq_self {s : Str} (h : '\r' ∉ s) : replaceCR s = s := by
  rw [replaceCR]
  conv_rhs => rw [← List.map_id s]
  apply List.map_congr_left
  intro c hc
  have hne : c ≠ '\r' := fun habs => h (habs ▸ hc)
  simp [hne]

theorem normalizeNewlines_eq_self {s : Str} (h : '\r' ∉ s) :
    normalizeNewlines s = s := by
  rw [normalizeNewlines, replaceCRLF_eq_self h, replaceCR_eq_self h]

theorem getLast?_dropWhile {p : Char → Bool} {s : Str}
    (h : s.dropWhile p ≠ []) : (s.dropWhile p).getLast? = s.getLast? := by
  induction s with
  | nil => simp at h
  | cons c r ih =>
    by_cases hp : p c
    · rw [List.dropWhile_cons_of_pos hp] at h ⊢
      rw [ih h]
      cases r with
      | nil => simp [List.dropWhile] at h
      | cons d r2 => rw [List.getLast?_cons_cons]
    · rw [List.dropWhile_cons_of_neg hp]

/-! ## Decimal rendering and parsing lemmas -/

theorem digitVal_digitChar (d : ℕ) (h : d < 10) : digitVal (digitChar d) = d := by
  interval_cases d <;> decide

theorem digitChar_facts (d : ℕ) (h : d < 10) :
    Char.isDigit (digitChar d) = true ∧ jsWS (digitChar d) = false
  ∧ digitChar d ≠ '"' ∧ digitChar d ≠ ',' ∧ digitChar d ≠ squote
  ∧ digitChar d ≠ '-' ∧ digitChar d ≠ '+' ∧ digitChar d ≠ '.'
  ∧ Char.toLower (digitChar d) = digitChar d
  ∧ digitChar d ≠ '\n' ∧ digitChar d ≠ '\r' ∧ digitChar d ≠ '='
  ∧ digitChar d ≠ 'e' ∧ digitChar d ≠ 'm' ∧ digitChar d ≠ '@' := by
  interval_cases d <;> decide

theorem natToStr_ne_nil (n : ℕ) : natToStr n ≠ [] := by
  by_cases h : n = 0
  · subst h; decide
  · rw [natToStr, if_neg h]
    simp [Nat.digits_ne_nil_iff_ne_zero, h]

theorem natToStr_digits (n : ℕ) :
    ∀ c ∈ natToStr n, ∃ d, d < 10 ∧ c = digitChar d := by
  by_cases h : n = 0
  · subst h
    intro c hc
    refine ⟨0, by norm_num, ?_⟩
    simpa [natToStr] using hc
  · rw [natToStr, if_neg h]
    intro c hc
    simp only [List.mem_map, List.mem_reverse] at hc
    obtain ⟨d, hd, rfl⟩ := hc
    exact ⟨d, Nat.digits_lt_base (by norm_num) hd, rfl⟩

theorem digitsToNat_rev_aux (ds : List ℕ) (a : ℕ) (h : ∀ d ∈ ds, d < 10) :
    List.foldl (fun acc c => 10 * acc + digitVal c) a (ds.reverse.map digitChar)
      = a * 10 ^ ds.length + Nat.ofDigits 10 ds := by
  induction ds generalizing a with
  | nil => simp [Nat.ofDigits_nil]
  | cons d t ih =>
    have hd : d < 10 := h d (List.mem_cons_self d t)
    have ht : ∀ x ∈ t, x < 10 := fun x hx => h x (List.mem_cons_of_mem d hx)
    rw [List.reverse_cons, List.map_append, List.foldl_append, ih _ ht]
    simp only [List.map_cons, List.map_nil, List.foldl_cons, List.foldl_nil,
      digitVal_digitChar d hd, Nat.ofDigits_cons, List.length_cons]
    ring

theorem digitsToNat_natToStr (n : ℕ) : digitsToNat (natToStr n) = n := by
  by_cases h : n = 0
  · subst h; decide
  · rw [natToStr, if_neg h, digitsToNat,
      digitsToNat_rev_aux _ 0 (fun d hd => Nat.digits_lt_base (by norm_num) hd)]
    simp [Nat.ofDigits_digits]

theorem digitsToNat_single (c : Char) : digitsToNat [c] = digitVal c := by
  simp [digitsToNat]

theorem digitsToNat_pair (c1 c2 : Char) :
    digitsToNat [c1, c2] = 10 * digitVal c1 + digitVal c2 := by
  simp [digitsToNat]

/-- The two decompositions needed below: a non-negative two-decimal rational
is its cents value over 100. -/
theorem cents_spec (q : ℚ) (h0 : 0 ≤ q) (h2 : (q * 100).den = 1) :
    ((((q * 100).num.toNat : ℕ) : ℚ)) = q * 100 := by
  have hnum : ((q * 100).num : ℚ) = q * 100 := by
    have := Rat.num_div_den (q * 100)
    rw [h2] at this
    simpa using this
  have hnn : 0 ≤ (q * 100).num := Rat.num_nonneg.mpr (by positivity)
  rw [← hnum]
  exact_mod_cast congrArg (fun z : ℤ => (z : ℚ)) (Int.toNat_of_nonneg hnn)

theorem parseFloat_natToStr_core (k : ℕ) (tail : Str)
    (htail : tail = [] ∨ ∃ r, tail = '.' :: r ∧ ('.' : Char).isDigit = false) :
    (natToStr k ++ tail).dropWhile jsWS = natToStr k ++ tail
    ∧ (natToStr k ++ tail).headD ' ' ≠ '-'
    ∧ (natToStr k ++ tail).headD ' ' ≠ '+'
    ∧ (natToStr k ++ tail).takeWhile Char.isDigit = natToStr k
    ∧ (natToStr k ++ tail).dropWhile Char.isDigit = tail := by
  have hds := natToStr_digits k
  have hall : ∀ c ∈ natToStr k, Char.isDigit c = true := by
    intro c hc
    obtain ⟨d, hd, rfl⟩ := hds c hc
    exact (digitChar_facts d hd).1
  obtain ⟨c0, r0, hcr⟩ : ∃ c0 r0, natToStr k = c0 :: r0 := by
    cases hnk : natToStr k with
    | nil => exact absurd hnk (natToStr_ne_nil k)
    | cons c0 r0 => exact ⟨c0, r0, rfl⟩
  obtain ⟨d0, hd0, hc0⟩ := hds c0 (by rw [hcr]; exact List.mem_cons_self _ _)
  have hfacts := digitChar_facts d0 hd0
  refine ⟨?_, ?_, ?_, ?_, ?_⟩
  · rw [hcr, List.cons_append, List.dropWhile_cons_of_neg]
    rw [hc0]
    simp [hfacts.2.1]
  · rw [hcr, List.cons_append]
    simp only [List.headD_cons]
    rw [hc0]
    exact hfacts.2.2.2.2.2.1
  · rw [hcr, List.cons_append]
    simp only [List.headD_cons]
    rw [hc0]
    exact hfacts.2.2.2.2.2.2.1
  · rw [List.takeWhile_append_of_pos hall]
    rcases htail with h | ⟨r, hr, _⟩
    · simp [h]
    · rw [hr, List.takeWhile_cons_of_neg (by decide), List.append_nil]
  · rw [List.dropWhile_append_of_pos hall]
    rcases htail with h | ⟨r, hr, _⟩
    · simp [h, List.dropWhile]
    · rw [hr, List.dropWhile_cons_of_neg (by decide)]

theorem parseFloat_int (k : ℕ) : parseFloatJS (natToStr k) = some (k : ℚ) := by
  obtain ⟨hdrop, hneg, hpos, htake, hdropd⟩ :=
    parseFloat_natToStr_core k [] (Or.inl rfl)
  rw [List.append_nil] at hdrop hneg hpos htake hdropd
  rw [parseFloatJS]
  simp only [hdrop, if_neg hneg, if_neg (not_or.mpr ⟨hneg, hpos⟩), htake, hdropd]
  rw [if_neg (natToStr_ne_nil k), digitsToNat_natToStr, one_mul]

theorem parseFloat_one_decimal (k d : ℕ) (hd : d < 10) :
    parseFloatJS (natToStr k ++ ['.', digitChar d])
      = some ((k : ℚ) + (d : ℚ) / 10) := by
  obtain ⟨hdrop, hneg, hpos, htake, hdropd⟩ :=
    parseFloat_natToStr_core k ['.', digitChar d] (Or.inr ⟨_, rfl, by decide⟩)
  rw [parseFloatJS]
  simp only [hdrop, if_neg hneg, if_neg (not_or.mpr ⟨hneg, hpos⟩), htake, hdropd]
  have hfrac : List.takeWhile Char.isDigit [digitChar d] = [digitChar d] := by
    rw [List.takeWhile_cons_of_pos (digitChar_facts d hd).1]
    rfl
  simp only [hfrac]
  rw [if_neg (by simp [natToStr_ne_nil k])]
  rw [digitsToNat_natToStr, digitsToNat_single, digitVal_digitChar d hd]
  norm_num

theorem parseFloat_two_decimal (k d1 d2 : ℕ) (hd1 : d1 < 10) (hd2 : d2 < 10) :
    parseFloatJS (natToStr k ++ ['.', digitChar d1, digitChar d2])
      = some ((k : ℚ) + ((10 * d1 + d2 : ℕ) : ℚ) / 100) := by
  obtain ⟨hdrop, hneg, hpos, htake, hdropd⟩ :=
    parseFloat_natToStr_core k ['.', digitChar d1, digitChar d2]
      (Or.inr ⟨_, rfl, by decide⟩)
  rw [parseFloatJS]
  simp only [hdrop, if_neg hneg, if_neg (not_or.mpr ⟨hneg, hpos⟩), htake, hdropd]
  have hfrac : List.takeWhile Char.isDigit [digitChar d1, digitChar d2]
      = [digitChar d1, digitChar d2] := by
    rw [List.takeWhile_cons_of_pos (digitChar_facts d1 hd1).1,
      List.takeWhile_cons_of_pos (digitChar_facts d2 hd2).1]
    rfl
  simp only [hfrac]
  rw [if_neg (by simp [natToStr_ne_nil k])]
  rw [digitsToNat_natToStr, digitsToNat_pair, digitVal_digitChar d1 hd1,
    digitVal_digitChar d2 hd2]
  congr 1
  simp only [List.length_cons, List.length_nil]
  push_cast
  ring

theorem parseFloatJS_numToString (q : ℚ) (h0 : 0 ≤ q) (h2 : (q * 100).den = 1) :
    parseFloatJS (numToString q) = some q := by
  have habs : |q| = q := abs_of_nonneg h0
  have hcents := cents_spec q h0 h2
  set cents := (q * 100).num.toNat with hcdef
  have hq : q = (cents : ℚ) / 100 := by
    rw [hcents]
    ring
  have hsplit : cents = 100 * (cents / 100) + cents % 100 :=
    (Nat.div_add_mod cents 100).symm
  have hmodlt : cents % 100 < 100 := Nat.mod_lt _ (by norm_num)
  rw [numToString]
  simp only [habs, ← hcdef, if_neg (not_lt.mpr h0), List.nil_append]
  by_cases hfz : cents % 100 = 0
  · rw [if_pos hfz, parseFloat_int]
    congr 1
    have hN : (cents : ℚ) = 100 * ((cents / 100 : ℕ) : ℚ) := by
      exact_mod_cast congrArg (fun n : ℕ => (n : ℚ))
        (show cents = 100 * (cents / 100) by omega)
    linarith [hcents]
  · rw [if_neg hfz]
    by_cases hf10 : cents % 100 % 10 = 0
    · rw [if_pos hf10]
      have h1 : cents % 100 / 10 < 10 := by omega
      rw [show (List.cons '.' [digitChar (cents % 100 / 10)])
          = ['.', digitChar (cents % 100 / 10)] from rfl]
      rw [parseFloat_one_decimal _ _ h1]
      congr 1
      have hN : (cents : ℚ)
          = 100 * ((cents / 100 : ℕ) : ℚ) + 10 * ((cents % 100 / 10 : ℕ) : ℚ) := by
        exact_mod_cast congrArg (fun n : ℕ => (n : ℚ))
          (show cents = 100 * (cents / 100) + 10 * (cents % 100 / 10) by omega)
      linarith [hcents]
    · rw [if_neg hf10]
      have h1 : cents % 100 / 10 < 10 := by omega
      have h2' : cents % 100 % 10 < 10 := by omega
      rw [show (List.cons '.' [digitChar (cents % 100 / 10), digitChar (cents % 100 % 10)])
          = ['.', digitChar (cents % 100 / 10), digitChar (cents % 100 % 10)] from rfl]
      rw [parseFloat_two_decimal _ _ _ h1 h2']
      congr 1
      have hN : (cents : ℚ)
          = 100 * ((cents / 100 : ℕ) : ℚ) + 10 * ((cents % 100 / 10 : ℕ) : ℚ)
            + ((cents % 100 % 10 : ℕ) : ℚ) := by
        exact_mod_cast congrArg (fun n : ℕ => (n : ℚ))
          (show cents = 100 * (cents / 100) + 10 * (cents % 100 / 10)
            + cents % 100 % 10 by omega)
      push_cast
      push_cast at hN
      linarith [hcents]

/-! ## Character classes, trim and field lemmas -/

theorem strict_ne {c x : Char} (h : isStrictNameChar c = true)
    (hx : isStrictNameChar x = false) : c ≠ x := by
  intro heq
  rw [heq, hx] at h
  cases h

theorem exists_getLast?_mem {s : Str} (h : s ≠ []) :
    ∃ c, s.getLast? = some c ∧ c ∈ s := by
  induction s with
  | nil => exact absurd rfl h
  | cons a t ih =>
    cases t with
    | nil => exact ⟨a, rfl, List.mem_cons_self a []⟩
    | cons b t2 =>
      obtain ⟨c, hc, hmem⟩ := ih (by simp)
      exact ⟨c, by rw [List.getLast?_cons_cons]; exact hc, List.mem_cons_of_mem a hmem⟩

theorem numToString_mem (q : ℚ) (h0 : 0 ≤ q) :
    ∀ c ∈ numToString q, (∃ d, d < 10 ∧ c = digitChar d) ∨ c = '.' := by
  intro c hc
  rw [numToString] at hc
  simp only [if_neg (not_lt.mpr h0), List.nil_append] at hc
  set cents := (|q| * 100).num.toNat with hcdef
  by_cases hfz : cents % 100 = 0
  · rw [if_pos hfz] at hc
    exact Or.inl (natToStr_digits _ c hc)
  · rw [if_neg hfz] at hc
    by_cases hf10 : cents % 100 % 10 = 0
    · rw [if_pos hf10] at hc
      rcases List.mem_append.mp hc with h1 | h1
      · exact Or.inl (natToStr_digits _ c h1)
      · rcases List.mem_cons.mp h1 with h2 | h2
        · exact Or.inr h2
        · simp only [List.mem_cons, List.not_mem_nil, or_false] at h2
          exact Or.inl ⟨cents % 100 / 10, by omega, h2⟩
    · rw [if_neg hf10] at hc
      rcases List.mem_append.mp hc with h1 | h1
      · exact Or.inl (natToStr_digits _ c h1)
      · rcases List.mem_cons.mp h1 with h2 | h2
        · exact Or.inr h2
        · simp only [List.mem_cons, List.not_mem_nil, or_false] at h2
          rcases h2 with h3 | h3
          · exact Or.inl ⟨cents % 100 / 10, by omega, h3⟩
          · exact Or.inl ⟨cents % 100 % 10, by omega, h3⟩

theorem numToString_ne_nil (q : ℚ) (h0 : 0 ≤ q) : numToString q ≠ [] := by
  rw [numToString]
  simp only [if_neg (not_lt.mpr h0), List.nil_append]
  split
  · exact natToStr_ne_nil _
  · split <;> simp [natToStr_ne_nil]

theorem numToString_head (q : ℚ) (h0 : 0 ≤ q) :
    ∃ d, d < 10 ∧ (numToString q).head? = some (digitChar d) := by
  rw [numToString]
  simp only [if_neg (not_lt.mpr h0), List.nil_append]
  have hn := natToStr_ne_nil ((|q| * 100).num.toNat / 100)
  obtain ⟨c0, r0, hcr⟩ : ∃ c0 r0,
      natToStr ((|q| * 100).num.toNat / 100) = c0 :: r0 := by
    cases hnk : natToStr ((|q| * 100).num.toNat / 100) with
    | nil => exact absurd hnk hn
    | cons c0 r0 => exact ⟨c0, r0, rfl⟩
  obtain ⟨d, hd, hcd⟩ := natToStr_digits _ c0 (by rw [hcr]; exact List.mem_cons_self _ _)
  refine ⟨d, hd, ?_⟩
  split
  · rw [hcr, List.head?_cons, hcd]
  · split <;> rw [hcr] <;> simp [hcd]

theorem numToString_last (q : ℚ) (h0 : 0 ≤ q) :
    ∃ d, d < 10 ∧ (numToString q).getLast? = some (digitChar d) := by
  rw [numToString]
  simp only [if_neg (not_lt.mpr h0), List.nil_append]
  set cents := (|q| * 100).num.toNat with hcdef
  split
  · obtain ⟨c, hc, hmem⟩ := exists_getLast?_mem (natToStr_ne_nil (cents / 100))
    obtain ⟨d, hd, hcd⟩ := natToStr_digits _ c hmem
    exact ⟨d, hd, by rw [hc, hcd]⟩
  · split
    · next hne hf10 =>
      refine ⟨cents % 100 / 10, by omega, ?_⟩
      rw [show natToStr (cents / 100) ++ ['.', digitChar (cents % 100 / 10)]
          = (natToStr (cents / 100) ++ ['.']) ++ [digitChar (cents % 100 / 10)] by
            simp]
      exact List.getLast?_concat _
    · next hne hf10 =>
      refine ⟨cents % 100 % 10, by omega, ?_⟩
      rw [show natToStr (cents / 100)
            ++ ['.', digitChar (cents % 100 / 10), digitChar (cents % 100 % 10)]
          = (natToStr (cents / 100) ++ ['.', digitChar (cents % 100 / 10)])
            ++ [digitChar (cents % 100 % 10)] by simp]
      exact List.getLast?_concat _

theorem escapeQuotes_eq_self {s : Str} (h : ∀ c ∈ s, c ≠ '"') :
    escapeQuotes s = s := by
  induction s with
  | nil => rfl
  | cons c r ih =>
    have hc : c ≠ '"' := h c (List.mem_cons_self c r)
    have hr := ih (fun x hx => h x (List.mem_cons_of_mem c hx))
    simp only [escapeQuotes] at hr ⊢
    simp [hc, hr]

theorem unescapeQuotes_cons_ne {c : Char} {r : Str} (hc : c ≠ '"') :
    unescapeQuotes (c :: r) = c :: unescapeQuotes r := by
  rw [unescapeQuotes.eq_def]
  split
  · next heq =>
    have h1 : c = '"' := by injection heq
    exact absurd h1 hc
  · next heq =>
    injection heq with h1 h2
    rw [h1, h2]
  · next heq => simp at heq

theorem unescapeQuotes_eq_self {s : Str} (h : ∀ c ∈ s, c ≠ '"') :
    unescapeQuotes s = s := by
  induction s with
  | nil => rfl
  | cons c r ih =>
    rw [unescapeQuotes_cons_ne (h c (List.mem_cons_self c r)),
      ih (fun x hx => h x (List.mem_cons_of_mem c hx))]

theorem trimStr_eq_self_of {s : Str}
    (h1 : ∀ c, s.head? = some c → jsWS c = false)
    (h2 : ∀ c, s.getLast? = some c → jsWS c = false) : trimStr s = s := by
  have hs1 : s.dropWhile jsWS = s := by
    cases s with
    | nil => rfl
    | cons c r => exact List.dropWhile_cons_of_neg (by simp [h1 c rfl])
  rw [trimStr, hs1]
  have hs2 : s.reverse.dropWhile jsWS = s.reverse := by
    cases hrev : s.reverse with
    | nil => rfl
    | cons c r =>
      refine List.dropWhile_cons_of_neg ?_
      have : s.getLast? = some c := by
        rw [← List.head?_reverse, hrev, List.head?_cons]
      simp [h2 c this]
  rw [hs2, List.reverse_reverse]

theorem length_trimStr_le (s : Str) : (trimStr s).length ≤ s.length := by
  rw [trimStr]
  calc ((s.dropWhile jsWS).reverse.dropWhile jsWS).reverse.length
      = ((s.dropWhile jsWS).reverse.dropWhile jsWS).length := List.length_reverse _
    _ ≤ (s.dropWhile jsWS).reverse.length := (List.dropWhile_sublist _).length_le
    _ = (s.dropWhile jsWS).length := List.length_reverse _
    _ ≤ s.length := (List.dropWhile_sublist _).length_le

theorem head_not_ws_of_trim {s : Str} {c : Char} (h : trimStr s = s)
    (hc : s.head? = some c) : jsWS c = false := by
  by_contra habs
  have hws : jsWS c = true := by
    cases hx : jsWS c with
    | false => exact absurd hx habs
    | true => rfl
  obtain ⟨r, hr⟩ : ∃ r, s = c :: r := by
    cases s with
    | nil => cases hc
    | cons a t => exact ⟨t, by injection hc with h1; rw [h1]⟩
  have hlen : (trimStr s).length < s.length := by
    rw [trimStr, hr, List.dropWhile_cons_of_pos hws]
    calc ((r.dropWhile jsWS).reverse.dropWhile jsWS).reverse.length
        ≤ (r.dropWhile jsWS).reverse.length := by
          rw [List.length_reverse]
          exact (List.dropWhile_sublist _).length_le
      _ = (r.dropWhile jsWS).length := List.length_reverse _
      _ ≤ r.length := (List.dropWhile_sublist _).length_le
      _ < (c :: r).length := by simp [Nat.lt_succ_self]
  rw [h] at hlen
  exact Nat.lt_irrefl _ hlen

theorem last_not_ws_of_trim {s : Str} {c : Char} (h : trimStr s = s)
    (hc : s.getLast? = some c) : jsWS c = false := by
  by_contra habs
  have hws : jsWS c = true := by
    cases hx : jsWS c with
    | false => exact absurd hx habs
    | true => rfl
  have hsne : s ≠ [] := by
    intro hnil
    rw [hnil] at hc
    cases hc
  by_cases hdw : s.dropWhile jsWS = []
  · have : trimStr s = [] := by
      rw [trimStr, hdw]
      rfl
    rw [h] at this
    exact hsne this
  · have hlast : (s.dropWhile jsWS).getLast? = some c := by
      rw [getLast?_dropWhile hdw]
      exact hc
    obtain ⟨t, ht⟩ : ∃ t, (s.dropWhile jsWS).reverse = c :: t := by
      cases hrev : (s.dropWhile jsWS).reverse with
      | nil =>
        rw [List.reverse_eq_nil_iff] at hrev
        exact absurd hrev hdw
      | cons a t =>
        have ha : (s.dropWhile jsWS).getLast? = some a := by
          rw [← List.head?_reverse, hrev, List.head?_cons]
        rw [hlast] at ha
        injection ha with h1
        subst h1
        exact ⟨t, rfl⟩
    have hlen : (trimStr s).length < s.length := by
      rw [trimStr, ht, List.dropWhile_cons_of_pos hws]
      have hlen1 : (s.dropWhile jsWS).length ≤ s.length := (List.dropWhile_sublist _).length_le
      have hlen2 : t.length + 1 = (s.dropWhile jsWS).length := by
        have := congrArg List.length ht
        simp only [List.length_reverse, List.length_cons] at this
        omega
      calc (t.dropWhile jsWS).reverse.length
          = (t.dropWhile jsWS).length := List.length_reverse _
        _ ≤ t.length := (List.dropWhile_sublist _).length_le
        _ < s.length := by omega
    rw [h] at hlen
    exact Nat.lt_irrefl _ hlen

/-! ## Serialized-field lemmas -/

theorem isDigit_toNat_bounds {c : Char} (h : c.isDigit = true) :
    48 ≤ c.toNat ∧ c.toNat ≤ 57 := by
  simp only [Char.isDigit, Bool.and_eq_true, decide_eq_true_eq] at h
  obtain ⟨h1, h2⟩ := h
  rw [ge_iff_le, UInt32.le_def, BitVec.le_def] at h1
  rw [UInt32.le_def, BitVec.le_def] at h2
  exact ⟨h1, h2⟩

theorem digit_char_ne {c : Char} (h : c.isDigit = true) :
    c ≠ '"' ∧ c ≠ ',' ∧ c ≠ squote ∧ jsWS c = false ∧ c ≠ '-' ∧ c ≠ '+'
      ∧ c ≠ '=' ∧ c ≠ '@' ∧ Char.toLower c = c := by
  have hb := isDigit_toNat_bounds h
  have hws : jsWS c = false := by
    cases hx : jsWS c with
    | false => rfl
    | true =>
      simp only [jsWS, Bool.or_eq_true, decide_eq_true_eq] at hx
      rcases hx with ((((h1 | h1) | h1) | h1) | h1) | h1 <;> subst h1 <;>
        exact absurd hb (by decide)
  have htl : Char.toLower c = c := by
    rw [Char.toLower]
    rw [if_neg]
    intro ⟨ha, hb2⟩
    omega
  refine ⟨?_, ?_, ?_, hws, ?_, ?_, ?_, ?_, htl⟩ <;> intro heq <;> subst heq <;>
    exact absurd hb (by decide)

theorem isMonthFormat_spec {s : Str} (h : isMonthFormat s = true) :
    ∃ a b c d e f, s = [a, b, c, d, '-', e, f]
      ∧ a.isDigit = true ∧ b.isDigit = true ∧ c.isDigit = true
      ∧ d.isDigit = true ∧ e.isDigit = true ∧ f.isDigit = true := by
  rw [isMonthFormat.eq_def] at h
  split at h
  · next a b c d e f =>
    simp only [Bool.and_eq_true] at h
    exact ⟨a, b, c, d, e, f, rfl, h.1.1.1.1.1, h.1.1.1.1.2, h.1.1.1.2,
      h.1.1.2, h.1.2, h.2⟩
  · cases h

theorem month_mem {s : Str} (h : isMonthFormat s = true) :
    ∀ c ∈ s, c.isDigit = true ∨ c = '-' := by
  obtain ⟨a, b, c0, d, e, f, hs, ha, hb, hc, hd, he, hf⟩ := isMonthFormat_spec h
  subst hs
  intro c hc2
  simp only [List.mem_cons, List.not_mem_nil, or_false] at hc2
  rcases hc2 with rfl | rfl | rfl | rfl | rfl | rfl | rfl
  · exact Or.inl ha
  · exact Or.inl hb
  · exact Or.inl hc
  · exact Or.inl hd
  · exact Or.inr rfl
  · exact Or.inl he
  · exact Or.inl hf

theorem reimportableName_spec {s : Str} (h : reimportableName s = true) :
    s ≠ [] ∧ trimStr s = s ∧ (∀ c ∈ s, isStrictNameChar c = true)
    ∧ includesStr (toLowerStr s) (str "export") = false
    ∧ includesStr (toLowerStr s) (str "money for nothing") = false
    ∧ includesStr s (str "---") = false := by
  simp only [reimportableName, Bool.and_eq_true, Bool.not_eq_true',
    decide_eq_true_eq, List.all_eq_true] at h
  obtain ⟨⟨⟨⟨⟨hval, hall⟩, htrim⟩, h4⟩, h5⟩, h6⟩ := h
  refine ⟨?_, htrim, hall, h4, h5, h6⟩
  intro hnil
  rw [hnil] at hval
  exact absurd hval (by decide)

theorem name_char_facts {c : Char} (h : isStrictNameChar c = true) :
    c ≠ '"' ∧ c ≠ ',' ∧ c ≠ squote ∧ c ≠ '\n' ∧ c ≠ '\r' := by
  exact ⟨strict_ne h (by decide), strict_ne h (by decide), strict_ne h (by decide),
    strict_ne h (by decide), strict_ne h (by decide)⟩

theorem field_name {s : Str} (h : reimportableName s = true) :
    (sanitizeCSVValue s = s ∨ sanitizeCSVValue s = '"' :: squote :: s ++ ['"'])
    ∧ parseCSVValue (sanitizeCSVValue s) = s
    ∧ goodField (sanitizeCSVValue s) := by
  obtain ⟨hne, htrim, hchars, _, _, _⟩ := reimportableName_spec h
  have hnq : ∀ c ∈ s, c ≠ '"' := fun c hc => (name_char_facts (hchars c hc)).1
  have hesc : escapeQuotes s = s := escapeQuotes_eq_self hnq
  have hnoq : needsQuoting s = false := by
    cases hx : needsQuoting s with
    | false => rfl
    | true =>
      rw [needsQuoting, List.any_eq_true] at hx
      obtain ⟨c, hc, hcx⟩ := hx
      obtain ⟨f1, f2, f3, f4, f5⟩ := name_char_facts (hchars c hc)
      simp only [Bool.or_eq_true, decide_eq_true_eq] at hcx
      tauto
  obtain ⟨c0, r0, hcr⟩ : ∃ c0 r0, s = c0 :: r0 := by
    cases s with
    | nil => exact absurd rfl hne
    | cons c0 r0 => exact ⟨c0, r0, rfl⟩
  have hc0 := hchars c0 (by rw [hcr]; exact List.mem_cons_self _ _)
  have hq1 : ('"' : Char) ≠ c0 := fun heq => (name_char_facts hc0).1 heq.symm
  have hq2 : squote ≠ c0 := fun heq => (name_char_facts hc0).2.2.1 heq.symm
  have hsq : startsWithStr s ['"'] = false := by
    rw [hcr]
    simp [startsWithStr, List.isPrefixOf, beq_iff_eq, hq1]
  have hsq2 : startsWithStr s [squote] = false := by
    rw [hcr]
    simp [startsWithStr, List.isPrefixOf, beq_iff_eq, hq2]
  have hus : unescapeQuotes s = s := unescapeQuotes_eq_self hnq
  have hraw : parseCSVValue s = s := by
    rw [parseCSVValue]
    simp only [htrim, hsq, Bool.false_eq_true, false_and, if_false, hus, hsq2]
  rw [sanitizeCSVValue, hesc]
  by_cases hform : startsWithFormulaChar s = true
  · rw [if_pos hform]
    refine ⟨Or.inr rfl, ?_, ?_⟩
    · have htrim2 : trimStr ('"' :: squote :: (s ++ ['"']))
          = '"' :: squote :: (s ++ ['"']) := by
        refine trimStr_eq_self_of ?_ ?_
        · intro c hc
          injection hc with h1
          rw [← h1]
          decide
        · intro c hc
          rw [show ('"' :: squote :: (s ++ ['"']))
              = ('"' :: squote :: s) ++ ['"'] by simp, List.getLast?_concat] at hc
          injection hc with h1
          rw [← h1]
          decide
      have hpre : startsWithStr ('"' :: squote :: (s ++ ['"'])) ['"'] = true := by
        simp [startsWithStr, List.isPrefixOf]
      have hend : endsWithChar ('"' :: squote :: (s ++ ['"'])) '"' = true := by
        rw [endsWithChar, show ('"' :: squote :: (s ++ ['"']))
            = ('"' :: squote :: s) ++ ['"'] by simp, List.getLast?_concat]
        decide
      have hdrop : (squote :: (s ++ ['"'])).dropLast = squote :: s := by
        rw [show (squote :: (s ++ ['"'])) = (squote :: s) ++ ['"'] by simp,
          List.dropLast_concat]
      have huq : unescapeQuotes (squote :: s) = squote :: s := by
        refine unescapeQuotes_eq_self ?_
        intro c hc
        rcases List.mem_cons.mp hc with rfl | hc2
        · decide
        · exact hnq c hc2
      have hsqs : startsWithStr (squote :: s) [squote] = true := by
        simp [startsWithStr, List.isPrefixOf]
      rw [parseCSVValue]
      simp [htrim2, hpre, hend, hdrop, huq, hsqs]
    · refine Or.inr ⟨squote :: s, rfl, ?_⟩
      intro c hc
      rcases List.mem_cons.mp hc with rfl | hc2
      · decide
      · exact hnq c hc2
  · rw [if_neg hform, if_neg (by rw [hnoq]; exact Bool.false_ne_true)]
    exact ⟨Or.inl rfl, hraw, Or.inl (fun c hc =>
      ⟨(name_char_facts (hchars c hc)).1, (name_char_facts (hchars c hc)).2.1⟩)⟩

theorem startsWith_single_false {s : Str} {x : Char}
    (h : ∀ c, s.head? = some c → c ≠ x) : startsWithStr s [x] = false := by
  cases s with
  | nil => rfl
  | cons c r =>
    have hc : c ≠ x := h c rfl
    simp only [startsWithStr, List.isPrefixOf, List.isPrefixOf_nil_left,
      Bool.and_true, beq_eq_false_iff_ne, ne_eq]
    exact fun heq => hc heq.symm

theorem parseCSVValue_plain {s : Str}
    (htrim : trimStr s = s)
    (hq : startsWithStr s ['"'] = false)
    (hnq : ∀ c ∈ s, c ≠ '"')
    (hsq : startsWithStr s [squote] = false) :
    parseCSVValue s = s := by
  rw [parseCSVValue]
  simp only [htrim, hq, Bool.false_eq_true, false_and, if_false,
    unescapeQuotes_eq_self hnq, hsq]

theorem field_num (q : ℚ) (h0 : 0 ≤ q) :
    sanitizeCSVValue (numToString q) = numToString q
    ∧ parseCSVValue (numToString q) = numToString q
    ∧ goodField (numToString q) := by
  have hmem := numToString_mem q h0
  have hfacts : ∀ c ∈ numToString q,
      c ≠ '"' ∧ c ≠ ',' ∧ c ≠ squote ∧ jsWS c = false := by
    intro c hc
    rcases hmem c hc with ⟨d, hd, rfl⟩ | rfl
    · have h1 := digit_char_ne (digitChar_facts d hd).1
      exact ⟨h1.1, h1.2.1, h1.2.2.1, h1.2.2.2.1⟩
    · exact ⟨by decide, by decide, by decide, by decide⟩
  obtain ⟨d0, hd0, hhead⟩ := numToString_head q h0
  obtain ⟨dl, hdl, hlastq⟩ := numToString_last q h0
  have hesc := escapeQuotes_eq_self (fun c hc => (hfacts c hc).1)
  have hnoq : needsQuoting (numToString q) = false := by
    cases hx : needsQuoting (numToString q) with
    | false => rfl
    | true =>
      rw [needsQuoting, List.any_eq_true] at hx
      obtain ⟨c, hc, hcx⟩ := hx
      obtain ⟨f1, f2, _, f4⟩ := hfacts c hc
      have f5 : c ≠ '\n' := fun heq => by rw [heq] at f4; cases f4
      have f6 : c ≠ '\r' := fun heq => by rw [heq] at f4; cases f4
      simp only [Bool.or_eq_true, decide_eq_true_eq] at hcx
      tauto
  obtain ⟨c0, r0, hcr⟩ : ∃ c0 r0, numToString q = c0 :: r0 := by
    cases hnk : numToString q with
    | nil => exact absurd hnk (numToString_ne_nil q h0)
    | cons c0 r0 => exact ⟨c0, r0, rfl⟩
  have hc0eq : c0 = digitChar d0 := by
    rw [hcr] at hhead
    injection hhead
  have hc0d : c0.isDigit = true := by
    rw [hc0eq]
    exact (digitChar_facts d0 hd0).1
  have hc0 := digit_char_ne hc0d
  have hcld := digit_char_ne (digitChar_facts dl hdl).1
  have hform : startsWithFormulaChar (numToString q) = false := by
    rw [hcr]
    simp only [startsWithFormulaChar, Bool.or_eq_false_iff, decide_eq_false_iff_not]
    exact ⟨⟨⟨hc0.2.2.2.2.2.2.1, hc0.2.2.2.2.2.1⟩, hc0.2.2.2.2.1⟩, hc0.2.2.2.2.2.2.2.1⟩
  have htrim : trimStr (numToString q) = numToString q := by
    refine trimStr_eq_self_of ?_ ?_
    · intro c hc
      rw [hhead] at hc
      injection hc with h1
      rw [← h1]
      exact (digit_char_ne (digitChar_facts d0 hd0).1).2.2.2.1
    · intro c hc
      rw [hlastq] at hc
      injection hc with h1
      rw [← h1]
      exact hcld.2.2.2.1
  have hq : startsWithStr (numToString q) ['"'] = false := by
    refine startsWith_single_false ?_
    intro c hc
    rw [hhead] at hc
    injection hc with h1
    rw [← h1]
    exact (digit_char_ne (digitChar_facts d0 hd0).1).1
  have hsq : startsWithStr (numToString q) [squote] = false := by
    refine startsWith_single_false ?_
    intro c hc
    rw [hhead] at hc
    injection hc with h1
    rw [← h1]
    exact (digit_char_ne (digitChar_facts d0 hd0).1).2.2.1
  refine ⟨?_, parseCSVValue_plain htrim hq (fun c hc => (hfacts c hc).1) hsq,
    Or.inl (fun c hc => ⟨(hfacts c hc).1, (hfacts c hc).2.1⟩)⟩
  rw [sanitizeCSVValue, hesc, if_neg (by rw [hform]; exact Bool.false_ne_true),
    if_neg (by rw [hnoq]; exact Bool.false_ne_true)]

theorem field_month {s : Str} (h : isMonthFormat s = true) :
    sanitizeCSVValue s = s ∧ parseCSVValue s = s ∧ goodField s
      ∧ s ≠ [] ∧ toLowerStr s = s := by
  obtain ⟨a, b, c0, d, e, f, hs, ha, hb, hc, hd, he, hf⟩ := isMonthFormat_spec h
  subst hs
  have hmem := month_mem h
  have hfacts : ∀ c ∈ [a, b, c0, d, '-', e, f],
      c ≠ '"' ∧ c ≠ ',' ∧ c ≠ squote ∧ jsWS c = false ∧ Char.toLower c = c := by
    intro c hcm
    rcases hmem c hcm with hdig | rfl
    · have h1 := digit_char_ne hdig
      exact ⟨h1.1, h1.2.1, h1.2.2.1, h1.2.2.2.1, h1.2.2.2.2.2.2.2.2⟩
    · exact ⟨by decide, by decide, by decide, by decide, by decide⟩
  have hada := digit_char_ne ha
  have hesc := escapeQuotes_eq_self (fun c hc2 => (hfacts c hc2).1)
  have hnoq : needsQuoting [a, b, c0, d, '-', e, f] = false := by
    cases hx : needsQuoting [a, b, c0, d, '-', e, f] with
    | false => rfl
    | true =>
      rw [needsQuoting, List.any_eq_true] at hx
      obtain ⟨c, hc2, hcx⟩ := hx
      obtain ⟨f1, f2, _, f4, _⟩ := hfacts c hc2
      have f5 : c ≠ '\n' := fun heq => by rw [heq] at f4; cases f4
      have f6 : c ≠ '\r' := fun heq => by rw [heq] at f4; cases f4
      simp only [Bool.or_eq_true, decide_eq_true_eq] at hcx
      tauto
  have hform : startsWithFormulaChar [a, b, c0, d, '-', e, f] = false := by
    simp only [startsWithFormulaChar, Bool.or_eq_false_iff, decide_eq_false_iff_not]
    exact ⟨⟨⟨hada.2.2.2.2.2.2.1, hada.2.2.2.2.2.1⟩, hada.2.2.2.2.1⟩,
      hada.2.2.2.2.2.2.2.1⟩
  have htrim : trimStr [a, b, c0, d, '-', e, f] = [a, b, c0, d, '-', e, f] := by
    refine trimStr_eq_self_of ?_ ?_
    · intro c hc2
      injection hc2 with h1
      rw [← h1]
      exact hada.2.2.2.1
    · intro c hc2
      rw [show ([a, b, c0, d, '-', e, f] : Str)
          = [a, b, c0, d, '-', e] ++ [f] by simp, List.getLast?_concat] at hc2
      injection hc2 with h1
      rw [← h1]
      exact (digit_char_ne hf).2.2.2.1
  have hq : startsWithStr [a, b, c0, d, '-', e, f] ['"'] = false := by
    refine startsWith_single_false ?_
    intro c hc2
    injection hc2 with h1
    rw [← h1]
    exact hada.1
  have hsq : startsWithStr [a, b, c0, d, '-', e, f] [squote] = false := by
    refine startsWith_single_false ?_
    intro c hc2
    injection hc2 with h1
    rw [← h1]
    exact hada.2.2.1
  refine ⟨?_, parseCSVValue_plain htrim hq (fun c hc2 => (hfacts c hc2).1) hsq,
    Or.inl (fun c hc2 => ⟨(hfacts c hc2).1, (hfacts c hc2).2.1⟩), by simp, ?_⟩
  · rw [sanitizeCSVValue, hesc, if_neg (by rw [hform]; exact Bool.false_ne_true),
      if_neg (by rw [hnoq]; exact Bool.false_ne_true)]
  · rw [toLowerStr]
    conv_rhs => rw [← List.map_id ([a, b, c0, d, '-', e, f] : Str)]
    apply List.map_congr_left
    intro c hc2
    exact (hfacts c hc2).2.2.2.2

theorem natToStr_one : natToStr 1 = ['1'] := by with_unfolding_all rfl

theorem natToStr_two : natToStr 2 = ['2'] := by with_unfolding_all rfl

/-! ## The parseCSVLine field scanner -/

theorem parseCSVLineAux_nil (inQ : Bool) (cur : Str) :
    parseCSVLineAux [] inQ cur = [parseCSVValue cur] := by
  rfl

theorem parseCSVLineAux_other {c : Char} (rest cur : Str) (inQ : Bool)
    (hq : c ≠ '"') (hcomma : c ≠ ',') :
    parseCSVLineAux (c :: rest) inQ cur = parseCSVLineAux rest inQ (cur ++ [c]) := by
  rw [parseCSVLineAux.eq_def]
  split <;> simp_all

theorem parseCSVLineAux_comma (rest cur : Str) :
    parseCSVLineAux (',' :: rest) false cur
      = parseCSVValue cur :: parseCSVLineAux rest false [] := by
  rw [parseCSVLineAux.eq_def]
  rfl

theorem parseCSVLineAux_open_quote (rest cur : Str) :
    parseCSVLineAux ('"' :: rest) false cur
      = parseCSVLineAux rest true (cur ++ ['"']) := by
  rw [parseCSVLineAux.eq_def]
  cases rest with
  | nil => rfl
  | cons d r2 =>
    split
    all_goals try simp_all
    all_goals (rename_i hq hc heq; exact absurd heq.1.symm hq)

theorem parseCSVLineAux_close_quote {rest : Str} (cur : Str)
    (hr : rest = [] ∨ ∃ r2, rest = ',' :: r2) :
    parseCSVLineAux ('"' :: rest) true cur
      = parseCSVLineAux rest false (cur ++ ['"']) := by
  rcases hr with rfl | ⟨r2, rfl⟩
  · rw [parseCSVLineAux.eq_def]
    rfl
  · rw [parseCSVLineAux.eq_def]
    rfl

theorem parseCSVLineAux_simple_acc {f : Str} (rest cur : Str)
    (hf : ∀ c ∈ f, c ≠ '"' ∧ c ≠ ',') :
    parseCSVLineAux (f ++ rest) false cur = parseCSVLineAux rest false (cur ++ f) := by
  induction f generalizing cur with
  | nil => simp
  | cons c t ih =>
    have hc := hf c (List.mem_cons_self c t)
    rw [List.cons_append, parseCSVLineAux_other _ _ _ hc.1 hc.2,
      ih _ (fun x hx => hf x (List.mem_cons_of_mem c hx))]
    simp

theorem parseCSVLineAux_inner_acc {f : Str} (rest cur : Str)
    (hf : ∀ c ∈ f, c ≠ '"') :
    parseCSVLineAux (f ++ rest) true cur = parseCSVLineAux rest true (cur ++ f) := by
  induction f generalizing cur with
  | nil => simp
  | cons c t ih =>
    have hc := hf c (List.mem_cons_self c t)
    by_cases hcm : c = ','
    · subst hcm
      have hstep : parseCSVLineAux (',' :: (t ++ rest)) true cur
          = parseCSVLineAux (t ++ rest) true (cur ++ [',']) := by
        rw [parseCSVLineAux.eq_def]
        rfl
      rw [List.cons_append, hstep, ih _ (fun x hx => hf x (List.mem_cons_of_mem _ hx))]
      simp
    · rw [List.cons_append, parseCSVLineAux_other _ _ _ hc hcm,
        ih _ (fun x hx => hf x (List.mem_cons_of_mem c hx))]
      simp

theorem goodField_step {f : Str} (rest cur : Str) (hf : goodField f)
    (hr : rest = [] ∨ ∃ r2, rest = ',' :: r2) :
    parseCSVLineAux (f ++ rest) false cur = parseCSVLineAux rest false (cur ++ f) := by
  rcases hf with hs | ⟨inner, rfl, hinner⟩
  · exact parseCSVLineAux_simple_acc rest cur hs
  · rw [show ('"' :: inner ++ ['"']) ++ rest = '"' :: (inner ++ ('"' :: rest)) by simp,
      parseCSVLineAux_open_quote, parseCSVLineAux_inner_acc _ _ hinner,
      parseCSVLineAux_close_quote _ hr]
    simp

theorem parseCSVLine_fields (fields : List Str) (hne : fields ≠ [])
    (hf : ∀ f ∈ fields, goodField f) :
    parseCSVLine (joinComma fields) = fields.map parseCSVValue := by
  induction fields with
  | nil => exact absurd rfl hne
  | cons f rest ih =>
    cases rest with
    | nil =>
      rw [joinComma_singleton, parseCSVLine,
        show (f : Str) = f ++ [] by simp,
        goodField_step [] [] (hf f (List.mem_cons_self f [])) (Or.inl rfl)]
      simp [parseCSVLineAux_nil]
    | cons g t =>
      rw [joinComma_cons_cons, parseCSVLine,
        goodField_step _ [] (hf f (List.mem_cons_self f _)) (Or.inr ⟨_, rfl⟩),
        List.nil_append, parseCSVLineAux_comma]
      rw [show parseCSVLineAux (joinComma (g :: t)) false [] = parseCSVLine (joinComma (g :: t)) from rfl,
        ih (by simp) (fun x hx => hf x (List.mem_cons_of_mem f hx))]
      rfl

/-! ## Helper lemmas -/

theorem length_sliceLast12_le {α : Type} (l : List α) : (sliceLast12 l).length ≤ 12 := by
  simp [sliceLast12]
  omega

theorem sliceLast12_of_length_twelve {α : Type} (l : List α) (a : α)
    (h : l.length = 12) : sliceLast12 (l ++ [a]) = l.tail ++ [a] := by
  have h1 : (l ++ [a]).length - 12 = 1 := by simp [h]
  rw [sliceLast12, h1, List.drop_append_of_le_length (by omega), List.drop_one]

theorem getLast?_sliceLast12_concat {α : Type} (l : List α) (a : α) :
    (sliceLast12 (l ++ [a])).getLast? = some a := by
  rw [sliceLast12]
  rcases le_or_lt (l ++ [a]).length 12 with h | h
  · rw [Nat.sub_eq_zero_of_le h, List.drop_zero, List.getLast?_concat]
  · have hlen : (l ++ [a]).length - 12 ≤ l.length := by
      simp only [List.length_append, List.length_cons, List.length_nil] at h ⊢
      omega
    rw [List.drop_append_of_le_length hlen, List.getLast?_concat]

/-! ## Round-trip toolkit: appends, joins, lowering -/

theorem head?_append_ne {a : Str} (b : Str) (h : a ≠ []) :
    (a ++ b).head? = a.head? := by
  cases a with
  | nil => exact absurd rfl h
  | cons c t => rfl

theorem getLast?_append_ne {b : Str} (a : Str) (h : b ≠ []) :
    (a ++ b).getLast? = b.getLast? := by
  rw [List.getLast?_append]
  cases hb : b.getLast? with
  | none => exact absurd (List.getLast?_eq_none_iff.mp hb) h
  | some c => rfl

theorem includes_nil_false {n : Str} (hne : n ≠ []) :
    includesStr [] n = false := by
  cases n with
  | nil => exact absurd rfl hne
  | cons c r => simp [includesStr, List.isPrefixOf]

theorem includes_singleton_false {x : Char} {n : Str} (hne : n ≠ [])
    (hh : n.headD ' ' ≠ x) : includesStr [x] n = false := by
  rw [includes_cons_head_ne hne hh]
  exact includes_nil_false hne

theorem includes_append_false {a b n : Str}
    (ha : includesStr a n = false) (hb : includesStr b n = false)
    (hspan : ∀ n1 n2, n = n1 ++ n2 → n1 ≠ [] → n2 ≠ [] →
      (∃ pre, a = pre ++ n1) → n2.isPrefixOf b = true → False) :
    includesStr (a ++ b) n = false := by
  cases hx : includesStr (a ++ b) n with
  | false => rfl
  | true =>
    exfalso
    rcases includes_append_cases hx with h1 | h1 | ⟨n1, n2, hs, hn1, hn2, hpre, hpfx⟩
    · rw [ha] at h1; cases h1
    · rw [hb] at h1; cases h1
    · exact hspan n1 n2 hs hn1 hn2 hpre hpfx

theorem includes_uniform_append_false {a b n : Str} {x : Char}
    (hnx : ∀ c ∈ n, c = x)
    (hlast : ∀ c, a.getLast? = some c → c ≠ x)
    (ha : includesStr a n = false) (hb : includesStr b n = false) :
    includesStr (a ++ b) n = false := by
  refine includes_append_false ha hb ?_
  intro n1 n2 hs hn1 hn2 ⟨pre, hpre⟩ _
  obtain ⟨c, hc, hcm⟩ := exists_getLast?_mem hn1
  have hcx : c = x := hnx c (by rw [hs]; exact List.mem_append_left n2 hcm)
  have : a.getLast? = some c := by
    rw [hpre]; rw [getLast?_append_ne pre hn1, hc]
  exact hlast c this hcx

theorem mem_joinComma {c : Char} {fields : List Str}
    (h : c ∈ joinComma fields) : c = ',' ∨ ∃ f ∈ fields, c ∈ f := by
  induction fields with
  | nil => cases h
  | cons f rest ih =>
    cases rest with
    | nil =>
      rw [joinComma_singleton] at h
      exact Or.inr ⟨f, List.mem_cons_self f [], h⟩
    | cons g t =>
      rw [joinComma_cons_cons] at h
      rcases List.mem_append.mp h with h1 | h1
      · exact Or.inr ⟨f, List.mem_cons_self f _, h1⟩
      · rcases List.mem_cons.mp h1 with rfl | h2
        · exact Or.inl rfl
        · rcases ih h2 with h3 | ⟨f2, hf2, hcf2⟩
          · exact Or.inl h3
          · exact Or.inr ⟨f2, List.mem_cons_of_mem f hf2, hcf2⟩

theorem mem_joinLines {c : Char} {L : List Str}
    (h : c ∈ joinLines L) : c = '\n' ∨ ∃ l ∈ L, c ∈ l := by
  induction L with
  | nil => cases h
  | cons f rest ih =>
    cases rest with
    | nil =>
      rw [joinLines_singleton] at h
      exact Or.inr ⟨f, List.mem_cons_self f [], h⟩
    | cons g t =>
      rw [joinLines_cons_cons] at h
      rcases List.mem_append.mp h with h1 | h1
      · exact Or.inr ⟨f, List.mem_cons_self f _, h1⟩
      · rcases List.mem_cons.mp h1 with rfl | h2
        · exact Or.inl rfl
        · rcases ih h2 with h3 | ⟨f2, hf2, hcf2⟩
          · exact Or.inl h3
          · exact Or.inr ⟨f2, List.mem_cons_of_mem f hf2, hcf2⟩

theorem toLowerStr_append (a b : Str) :
    toLowerStr (a ++ b) = toLowerStr a ++ toLowerStr b := by
  simp [toLowerStr]

theorem toLowerStr_joinComma (fields : List Str) :
    toLowerStr (joinComma fields) = joinComma (fields.map toLowerStr) := by
  induction fields with
  | nil => rfl
  | cons f rest ih =>
    cases rest with
    | nil => simp [joinComma_singleton]
    | cons g t =>
      have hcons : toLowerStr (',' :: joinComma (g :: t))
          = ',' :: toLowerStr (joinComma (g :: t)) := by
        simp [toLowerStr]
      rw [joinComma_cons_cons, toLowerStr_append, hcons, ih]
      simp only [List.map_cons]
      rw [joinComma_cons_cons]

theorem jsOrElse_some_zero (q : ℚ) : jsOrElse (some q) 0 = q := by
  rw [jsOrElse]
  by_cases h : q = 0
  · rw [if_pos h, h]
  · rw [if_neg h]

theorem jsOrElse_some_ne {q : ℚ} (d : ℚ) (h : q ≠ 0) :
    jsOrElse (some q) d = q := by
  rw [jsOrElse, if_neg h]

theorem digit_char_ne2 {c : Char} (h : c.isDigit = true) :
    c ≠ 'e' ∧ c ≠ 'm' ∧ c ≠ '\n' ∧ c ≠ '\r' ∧ c ≠ 's' := by
  have hb := isDigit_toNat_bounds h
  refine ⟨?_, ?_, ?_, ?_, ?_⟩ <;>
    · intro heq
      rw [heq] at hb
      revert hb
      decide

theorem getLast?_joinComma {fs : List Str} (hne : fs ≠ []) :
    joinComma fs = [] ∨
    ∃ c, (joinComma fs).getLast? = some c ∧
      (c = ',' ∨ ∃ f ∈ fs, f.getLast? = some c) := by
  induction fs with
  | nil => exact absurd rfl hne
  | cons f rest ih =>
    cases rest with
    | nil =>
      rw [joinComma_singleton]
      rcases f.eq_nil_or_concat with h | ⟨l, a, rfl⟩
      · exact Or.inl h
      · rw [List.concat_eq_append]
        exact Or.inr ⟨a, List.getLast?_concat l,
          Or.inr ⟨l ++ [a], List.mem_cons_self _ _, List.getLast?_concat l⟩⟩
    | cons g t =>
      rw [joinComma_cons_cons]
      rcases ih (by simp) with hnil | ⟨c, hc, hor⟩
      · refine Or.inr ⟨',', ?_, Or.inl rfl⟩
        rw [hnil, getLast?_append_ne f (by simp)]
        rfl
      · have hjne : joinComma (g :: t) ≠ [] := by
          intro habs
          rw [habs] at hc
          cases hc
        refine Or.inr ⟨c, ?_, ?_⟩
        · rw [getLast?_append_ne f (by simp)]
          cases hj : joinComma (g :: t) with
          | nil => exact absurd hj hjne
          | cons x r =>
            rw [List.getLast?_cons_cons, ← hj, hc]
        · rcases hor with h1 | ⟨f2, hf2, hl2⟩
          · exact Or.inl h1
          · exact Or.inr ⟨f2, List.mem_cons_of_mem f hf2, hl2⟩

theorem isPrefixOf_singleton {n : Str} {x : Char} (hne : n ≠ [])
    (h : n.isPrefixOf [x] = true) : n = [x] := by
  cases n with
  | nil => exact absurd rfl hne
  | cons c r =>
    rw [List.isPrefixOf_iff_prefix] at h
    obtain ⟨t, ht⟩ := h
    cases r with
    | nil =>
      have : c = x := by
        have := congrArg (fun l => l.headD ' ') ht
        simpa using this
      rw [this]
    | cons c2 r2 =>
      exfalso
      have := congrArg List.length ht
      simp at this

theorem includes_wrap_quote_false {s n : Str} (hne : n ≠ [])
    (hq : '"' ∉ n) (hsq : squote ∉ n)
    (h : includesStr s n = false) :
    includesStr ('"' :: squote :: (s ++ ['"'])) n = false := by
  have hhm : n.headD ' ' ∈ n := by
    cases n with
    | nil => exact absurd rfl hne
    | cons c r => exact List.mem_cons_self c r
  have hh1 : n.headD ' ' ≠ '"' := fun habs => hq (habs ▸ hhm)
  have hh2 : n.headD ' ' ≠ squote := fun habs => hsq (habs ▸ hhm)
  rw [includes_cons_head_ne hne hh1, includes_cons_head_ne hne hh2]
  refine includes_append_false h (includes_singleton_false hne hh1) ?_
  intro n1 n2 hs hn1 hn2 _ hpfx
  have hn2q : n2 = ['"'] := isPrefixOf_singleton hn2 hpfx
  apply hq
  rw [hs, hn2q]
  exact List.mem_append_right n1 (List.mem_cons_self _ _)

theorem fieldFacts_name {s : Str} (h : reimportableName s = true) :
    parseCSVValue (sanitizeCSVValue s) = s
    ∧ safeField (sanitizeCSVValue s) ∧ sanitizeCSVValue s ≠ [] := by
  obtain ⟨hne, htrim, hchars, hexp, hmfn, hdash⟩ := reimportableName_spec h
  obtain ⟨hsan, hparse, hgood⟩ := field_name h
  have hnl : '\n' ∉ s := fun habs => (name_char_facts (hchars _ habs)).2.2.2.1 rfl
  have hcr : '\r' ∉ s := fun habs => (name_char_facts (hchars _ habs)).2.2.2.2 rfl
  have heqne : '=' ∉ s := fun habs =>
    strict_ne (hchars _ habs) (by decide) rfl
  have hinc3 : includesStr s (str "===") = false :=
    includes_false_of_not_mem heqne
  have hws8 : ∀ c, s.head? = some c → jsWS c = false :=
    fun c hc => head_not_ws_of_trim htrim hc
  have hws9 : ∀ c, s.getLast? = some c → jsWS c = false :=
    fun c hc => last_not_ws_of_trim htrim hc
  rcases hsan with hs1 | hs1
  · rw [hs1] at hparse ⊢
    exact ⟨hparse, ⟨hs1 ▸ hgood, hnl, hcr, hinc3, hdash, hexp, hmfn, hws8, hws9⟩, hne⟩
  · have hlow : toLowerStr ('"' :: squote :: (s ++ ['"']))
        = '"' :: squote :: (toLowerStr s ++ ['"']) := by
      simp only [toLowerStr, List.map_cons, List.map_append, List.map_nil]
      rw [show Char.toLower '"' = '"' by decide,
        show Char.toLower squote = squote by decide]
    rw [hs1] at hparse ⊢
    simp only [List.cons_append]
    refine ⟨hparse, ⟨by rw [← List.cons_append, ← List.cons_append, ← hs1]; exact hgood,
      ?_, ?_, ?_, ?_, ?_, ?_, ?_, ?_⟩, by simp⟩
    · intro habs
      rcases List.mem_cons.mp habs with h1 | habs2
      · cases h1
      rcases List.mem_cons.mp habs2 with h1 | habs3
      · cases h1
      rcases List.mem_append.mp habs3 with h1 | h1
      · exact hnl h1
      · simp at h1
    · intro habs
      rcases List.mem_cons.mp habs with h1 | habs2
      · cases h1
      rcases List.mem_cons.mp habs2 with h1 | habs3
      · cases h1
      rcases List.mem_append.mp habs3 with h1 | h1
      · exact hcr h1
      · simp at h1
    · exact includes_wrap_quote_false (by decide) (by decide) (by decide) hinc3
    · exact includes_wrap_quote_false (by decide) (by decide) (by decide) hdash
    · rw [hlow]
      exact includes_wrap_quote_false (by decide) (by decide) (by decide) hexp
    · rw [hlow]
      exact includes_wrap_quote_false (by decide) (by decide) (by decide) hmfn
    · intro c hc
      injection hc with h1
      rw [← h1]
      decide
    · intro c hc
      rw [show ('"' :: squote :: (s ++ ['"'])) = ('"' :: squote :: s) ++ ['"'] by simp,
        List.getLast?_concat] at hc
      injection hc with h1
      rw [← h1]
      decide

theorem fieldFacts_num (q : ℚ) (h0 : 0 ≤ q) :
    sanitizeCSVValue (numToString q) = numToString q
    ∧ parseCSVValue (numToString q) = numToString q
    ∧ safeField (numToString q) ∧ numToString q ≠ [] := by
  obtain ⟨hsan, hparse, hgood⟩ := field_num q h0
  have hmem := numToString_mem q h0
  have hnl : '\n' ∉ numToString q := by
    intro habs
    rcases hmem _ habs with ⟨d, hd, hcd⟩ | hcd
    · exact (digitChar_facts d hd).2.2.2.2.2.2.2.2.2.1 hcd.symm
    · cases hcd
  have hcr : '\r' ∉ numToString q := by
    intro habs
    rcases hmem _ habs with ⟨d, hd, hcd⟩ | hcd
    · exact (digitChar_facts d hd).2.2.2.2.2.2.2.2.2.2.1 hcd.symm
    · cases hcd
  have heqne : '=' ∉ numToString q := by
    intro habs
    rcases hmem _ habs with ⟨d, hd, hcd⟩ | hcd
    · exact (digitChar_facts d hd).2.2.2.2.2.2.2.2.2.2.2.1 hcd.symm
    · cases hcd
  have hdne : '-' ∉ numToString q := by
    intro habs
    rcases hmem _ habs with ⟨d, hd, hcd⟩ | hcd
    · exact (digitChar_facts d hd).2.2.2.2.2.1 hcd.symm
    · cases hcd
  have hlowid : toLowerStr (numToString q) = numToString q := by
    rw [toLowerStr]
    conv_rhs => rw [← List.map_id (numToString q)]
    apply List.map_congr_left
    intro c hc
    rcases hmem _ hc with ⟨d, hd, rfl⟩ | rfl
    · exact (digitChar_facts d hd).2.2.2.2.2.2.2.2.1
    · decide
  have hene : 'e' ∉ numToString q := by
    intro habs
    rcases hmem _ habs with ⟨d, hd, hcd⟩ | hcd
    · exact (digitChar_facts d hd).2.2.2.2.2.2.2.2.2.2.2.2.1 hcd.symm
    · cases hcd
  have hmne : 'm' ∉ numToString q := by
    intro habs
    rcases hmem _ habs with ⟨d, hd, hcd⟩ | hcd
    · exact (digitChar_facts d hd).2.2.2.2.2.2.2.2.2.2.2.2.2.1 hcd.symm
    · cases hcd
  obtain ⟨d0, hd0, hhead⟩ := numToString_head q h0
  obtain ⟨dl, hdl, hlastq⟩ := numToString_last q h0
  refine ⟨hsan, hparse, ⟨hgood, hnl, hcr,
    includes_false_of_not_mem heqne, includes_false_of_not_mem hdne,
    by rw [hlowid]; exact includes_false_of_not_mem hene,
    by rw [hlowid]; exact includes_false_of_not_mem hmne, ?_, ?_⟩,
    numToString_ne_nil q h0⟩
  · intro c hc
    rw [hhead] at hc
    injection hc with h1
    rw [← h1]
    exact (digitChar_facts d0 hd0).2.1
  · intro c hc
    rw [hlastq] at hc
    injection hc with h1
    rw [← h1]
    exact (digitChar_facts dl hdl).2.1

theorem fieldFacts_month {s : Str} (h : isMonthFormat s = true) :
    sanitizeCSVValue s = s ∧ parseCSVValue s = s ∧ safeField s ∧ s ≠ [] := by
  obtain ⟨hsan, hparse, hgood, hne, hlow⟩ := field_month h
  obtain ⟨a, b, c0, d, e, f, hs, ha, hb, hc, hd, he, hf⟩ := isMonthFormat_spec h
  have hmem := month_mem h
  have hnl : '\n' ∉ s := by
    intro habs
    rcases hmem _ habs with hdig | hcd
    · exact (digit_char_ne2 hdig).2.2.1 rfl
    · cases hcd
  have hcr : '\r' ∉ s := by
    intro habs
    rcases hmem _ habs with hdig | hcd
    · exact (digit_char_ne2 hdig).2.2.2.1 rfl
    · cases hcd
  have heqne : '=' ∉ s := by
    intro habs
    rcases hmem _ habs with hdig | hcd
    · exact (digit_char_ne hdig).2.2.2.2.2.2.1 rfl
    · cases hcd
  have hene : 'e' ∉ s := by
    intro habs
    rcases hmem _ habs with hdig | hcd
    · exact (digit_char_ne2 hdig).1 rfl
    · cases hcd
  have hmne : 'm' ∉ s := by
    intro habs
    rcases hmem _ habs with hdig | hcd
    · exact (digit_char_ne2 hdig).2.1 rfl
    · cases hcd
  have hdash : includesStr s (str "---") = false := by
    subst hs
    have ha' : a ≠ '-' := (digit_char_ne ha).2.2.2.2.1
    have hb' : b ≠ '-' := (digit_char_ne hb).2.2.2.2.1
    have hc' : c0 ≠ '-' := (digit_char_ne hc).2.2.2.2.1
    have hd' : d ≠ '-' := (digit_char_ne hd).2.2.2.2.1
    have he' : e ≠ '-' := (digit_char_ne he).2.2.2.2.1
    have hf' : f ≠ '-' := (digit_char_ne hf).2.2.2.2.1
    have ha2 : ¬ ('-' = a) := fun h3 => ha' h3.symm
    have hb2 : ¬ ('-' = b) := fun h3 => hb' h3.symm
    have hc2 : ¬ ('-' = c0) := fun h3 => hc' h3.symm
    have hd2 : ¬ ('-' = d) := fun h3 => hd' h3.symm
    have he2 : ¬ ('-' = e) := fun h3 => he' h3.symm
    have hf2 : ¬ ('-' = f) := fun h3 => hf' h3.symm
    simp [includesStr, List.isPrefixOf, str, ha2, hb2, hc2, hd2, he2, hf2]
  have hws8 : ∀ c, s.head? = some c → jsWS c = false := by
    subst hs
    intro c hc2
    injection hc2 with h1
    rw [← h1]
    exact (digit_char_ne ha).2.2.2.1
  have hws9 : ∀ c, s.getLast? = some c → jsWS c = false := by
    subst hs
    intro c hc2
    rw [show ([a, b, c0, d, '-', e, f] : Str)
        = [a, b, c0, d, '-', e] ++ [f] by simp, List.getLast?_concat] at hc2
    injection hc2 with h1
    rw [← h1]
    exact (digit_char_ne hf).2.2.2.1
  exact ⟨hsan, hparse, ⟨hgood, hnl, hcr, includes_false_of_not_mem heqne, hdash,
    by rw [hlow]; exact includes_false_of_not_mem hene,
    by rw [hlow]; exact includes_false_of_not_mem hmne, hws8, hws9⟩, hne⟩

theorem fieldFacts_digit1 :
    sanitizeCSVValue ['1'] = ['1'] ∧ parseCSVValue ['1'] = ['1']
    ∧ safeField ['1'] := by
  refine ⟨by with_unfolding_all rfl, by with_unfolding_all rfl,
    Or.inl (by decide), by decide, by decide, by with_unfolding_all rfl,
    by with_unfolding_all rfl, by with_unfolding_all rfl,
    by with_unfolding_all rfl, ?_, ?_⟩
  · intro c hc
    injection hc with h1
    rw [← h1]
    decide
  · intro c hc
    injection hc with h1
    rw [← h1]
    decide

theorem fieldFacts_digit2 :
    sanitizeCSVValue ['2'] = ['2'] ∧ parseCSVValue ['2'] = ['2']
    ∧ safeField ['2'] := by
  refine ⟨by with_unfolding_all rfl, by with_unfolding_all rfl,
    Or.inl (by decide), by decide, by decide, by with_unfolding_all rfl,
    by with_unfolding_all rfl, by with_unfolding_all rfl,
    by with_unfolding_all rfl, ?_, ?_⟩
  · intro c hc
    injection hc with h1
    rw [← h1]
    decide
  · intro c hc
    injection hc with h1
    rw [← h1]
    decide

theorem fieldFacts_empty :
    sanitizeCSVValue [] = [] ∧ parseCSVValue [] = []
    ∧ safeField [] := by
  refine ⟨by with_unfolding_all rfl, by with_unfolding_all rfl,
    Or.inl (by decide), by decide, by decide, by with_unfolding_all rfl,
    by with_unfolding_all rfl, by with_unfolding_all rfl,
    by with_unfolding_all rfl, ?_, ?_⟩
  · intro c hc
    cases hc
  · intro c hc
    cases hc

theorem fieldFacts_yes :
    sanitizeCSVValue (str "Yes") = str "Yes"
    ∧ parseCSVValue (str "Yes") = str "Yes"
    ∧ safeField (str "Yes") := by
  refine ⟨by with_unfolding_all rfl, by with_unfolding_all rfl,
    Or.inl (by decide), by decide, by decide, by with_unfolding_all rfl,
    by with_unfolding_all rfl, by with_unfolding_all rfl,
    by with_unfolding_all rfl, ?_, ?_⟩
  · intro c hc
    injection hc with h1
    rw [← h1]
    decide
  · intro c hc
    rw [show (str "Yes") = ['Y', 'e'] ++ ['s'] by decide,
      List.getLast?_concat] at hc
    injection hc with h1
    rw [← h1]
    decide

theorem fieldFacts_no :
    sanitizeCSVValue (str "No") = str "No"
    ∧ parseCSVValue (str "No") = str "No"
    ∧ safeField (str "No") := by
  refine ⟨by with_unfolding_all rfl, by with_unfolding_all rfl,
    Or.inl (by decide), by decide, by decide, by with_unfolding_all rfl,
    by with_unfolding_all rfl, by with_unfolding_all rfl,
    by with_unfolding_all rfl, ?_, ?_⟩
  · intro c hc
    injection hc with h1
    rw [← h1]
    decide
  · intro c hc
    rw [show (str "No") = ['N'] ++ ['o'] by decide,
      List.getLast?_concat] at hc
    injection hc with h1
    rw [← h1]
    decide

theorem row_facts {f0 : Str} {fs : List Str} (hf0 : f0 ≠ [])
    (hsafe : ∀ f ∈ f0 :: fs, safeField f) :
    includesStr (joinComma (f0 :: fs)) (str "===") = false
    ∧ includesStr (joinComma (f0 :: fs)) (str "---") = false
    ∧ includesStr (toLowerStr (joinComma (f0 :: fs))) (str "export") = false
    ∧ includesStr (toLowerStr (joinComma (f0 :: fs))) (str "money for nothing") = false
    ∧ '\n' ∉ joinComma (f0 :: fs) ∧ '\r' ∉ joinComma (f0 :: fs)
    ∧ trimStr (joinComma (f0 :: fs)) = joinComma (f0 :: fs)
    ∧ joinComma (f0 :: fs) ≠ []
    ∧ parseCSVLine (joinComma (f0 :: fs)) = (f0 :: fs).map parseCSVValue := by
  have hnl : '\n' ∉ joinComma (f0 :: fs) := by
    intro habs
    rcases mem_joinComma habs with h1 | ⟨f, hfm, hcf⟩
    · cases h1
    · exact (hsafe f hfm).2.1 hcf
  have hcr : '\r' ∉ joinComma (f0 :: fs) := by
    intro habs
    rcases mem_joinComma habs with h1 | ⟨f, hfm, hcf⟩
    · cases h1
    · exact (hsafe f hfm).2.2.1 hcf
  have hne : joinComma (f0 :: fs) ≠ [] := by
    cases fs with
    | nil => rw [joinComma_singleton]; exact hf0
    | cons g t => rw [joinComma_cons_cons]; simp
  have htrim : trimStr (joinComma (f0 :: fs)) = joinComma (f0 :: fs) := by
    refine trimStr_eq_self_of ?_ ?_
    · intro c hc
      have hh : (joinComma (f0 :: fs)).head? = f0.head? := by
        cases fs with
        | nil => rw [joinComma_singleton]
        | cons g t => rw [joinComma_cons_cons]; exact head?_append_ne _ hf0
      rw [hh] at hc
      exact (hsafe f0 (List.mem_cons_self f0 fs)).2.2.2.2.2.2.2.1 c hc
    · intro c hc
      rcases getLast?_joinComma (show f0 :: fs ≠ [] by simp) with hjc | ⟨c2, hc2, hor⟩
      · exact absurd hjc hne
      · rw [hc2] at hc
        injection hc with h1
        rw [← h1]
        rcases hor with hcc | ⟨f, hfm, hfl⟩
        · rw [hcc]; decide
        · exact (hsafe f hfm).2.2.2.2.2.2.2.2 c2 hfl
  refine ⟨?_, ?_, ?_, ?_, hnl, hcr, htrim, hne, ?_⟩
  · exact joinComma_not_includes _ _ (by decide) (by decide)
      (fun f hf => (hsafe f hf).2.2.2.1)
  · exact joinComma_not_includes _ _ (by decide) (by decide)
      (fun f hf => (hsafe f hf).2.2.2.2.1)
  · rw [toLowerStr_joinComma]
    refine joinComma_not_includes _ _ (by decide) (by decide) ?_
    intro f hf
    rw [List.mem_map] at hf
    obtain ⟨g, hg, rfl⟩ := hf
    exact (hsafe g hg).2.2.2.2.2.1
  · rw [toLowerStr_joinComma]
    refine joinComma_not_includes _ _ (by decide) (by decide) ?_
    intro f hf
    rw [List.mem_map] at hf
    obtain ⟨g, hg, rfl⟩ := hf
    exact (hsafe g hg).2.2.2.2.2.2.1
  · exact parseCSVLine_fields _ (by simp) (fun f hf => (hsafe f hf).1)

theorem validateAmount_spec {q : ℚ} (h : validateAmount q = true) :
    0 < q ∧ (q * 100).den = 1 := by
  simp only [validateAmount, isTwoDecimal, Bool.and_eq_true, decide_eq_true_eq] at h
  exact ⟨h.1.1, h.1.2⟩

theorem validateNonNegativeAmount_spec {q : ℚ}
    (h : validateNonNegativeAmount q = true) :
    0 ≤ q ∧ (q * 100).den = 1 := by
  simp only [validateNonNegativeAmount, isTwoDecimal, Bool.and_eq_true,
    decide_eq_true_eq] at h
  exact ⟨h.1.1, h.1.2⟩

theorem reimportableIncome_spec {i : Income} (h : reimportableIncome i = true) :
    reimportableName i.name = true
    ∧ validateAmount i.defaultAmount = true
    ∧ validateAmount i.currentAmount = true
    ∧ (i.paycheckNumber = none ∨ i.paycheckNumber = some 1
       ∨ i.paycheckNumber = some 2) := by
  simp only [reimportableIncome, Bool.and_eq_true] at h
  obtain ⟨⟨⟨hn, hd⟩, hc⟩, hp⟩ := h
  refine ⟨hn, hd, hc, ?_⟩
  rcases hx : i.paycheckNumber with _ | n
  · exact Or.inl rfl
  · rw [hx] at hp
    rcases n with _ | _ | _ | k
    · cases hp
    · exact Or.inr (Or.inl rfl)
    · exact Or.inr (Or.inr rfl)
    · cases hp

theorem paycheckField_facts {pn : Option ℕ}
    (h : pn = none ∨ pn = some 1 ∨ pn = some 2) :
    sanitizeCSVValue (paycheckNumberToString pn) = paycheckNumberToString pn
    ∧ parseCSVValue (paycheckNumberToString pn) = paycheckNumberToString pn
    ∧ safeField (paycheckNumberToString pn) := by
  rcases h with hx | hx | hx <;> rw [hx] <;> simp only [paycheckNumberToString]
  · exact fieldFacts_empty
  · rw [natToStr_one]; exact fieldFacts_digit1
  · rw [natToStr_two]; exact fieldFacts_digit2

theorem incomeRow_facts {i : Income} (h : reimportableIncome i = true) :
    includesStr (incomeRow i) (str "===") = false
    ∧ includesStr (incomeRow i) (str "---") = false
    ∧ includesStr (toLowerStr (incomeRow i)) (str "export") = false
    ∧ includesStr (toLowerStr (incomeRow i)) (str "money for nothing") = false
    ∧ '\n' ∉ incomeRow i ∧ '\r' ∉ incomeRow i
    ∧ trimStr (incomeRow i) = incomeRow i
    ∧ incomeRow i ≠ []
    ∧ parseCSVLine (incomeRow i)
        = [i.name, numToString i.defaultAmount, numToString i.currentAmount,
           paycheckNumberToString i.paycheckNumber] := by
  obtain ⟨hn, hd, hc, hp⟩ := reimportableIncome_spec h
  have h0d : (0 : ℚ) ≤ i.defaultAmount := le_of_lt (validateAmount_spec hd).1
  have h0c : (0 : ℚ) ≤ i.currentAmount := le_of_lt (validateAmount_spec hc).1
  obtain ⟨hn1, hn2, hn3⟩ := fieldFacts_name hn
  obtain ⟨hd1, hd2, hd3, hd4⟩ := fieldFacts_num i.defaultAmount h0d
  obtain ⟨hc1, hc2, hc3, hc4⟩ := fieldFacts_num i.currentAmount h0c
  obtain ⟨hp1, hp2, hp3⟩ := paycheckField_facts hp
  have hsafe : ∀ f ∈ sanitizeCSVValue i.name ::
      [sanitizeCSVValue (numToString i.defaultAmount),
       sanitizeCSVValue (numToString i.currentAmount),
       sanitizeCSVValue (paycheckNumberToString i.paycheckNumber)],
      safeField f := by
    intro f hf
    simp only [List.mem_cons, List.not_mem_nil, or_false] at hf
    rcases hf with rfl | rfl | rfl | rfl
    · exact hn2
    · rw [hd1]; exact hd3
    · rw [hc1]; exact hc3
    · rw [hp1]; exact hp3
  have hrf := row_facts hn3 hsafe
  obtain ⟨r1, r2, r3, r4, r5, r6, r7, r8, r9⟩ := hrf
  refine ⟨r1, r2, r3, r4, r5, r6, r7, r8, ?_⟩
  rw [show incomeRow i = joinComma (sanitizeCSVValue i.name ::
      [sanitizeCSVValue (numToString i.defaultAmount),
       sanitizeCSVValue (numToString i.currentAmount),
       sanitizeCSVValue (paycheckNumberToString i.paycheckNumber)]) from rfl, r9]
  simp only [List.map_cons, List.map_nil]
  rw [hn1, hd1, hd2, hc1, hc2, hp1, hp2]

theorem reimportableBill_spec {b : Bill} (h : reimportableBill b = true) :
    reimportableName b.name = true ∧ validateAmount b.amount = true := by
  simp only [reimportableBill, Bool.and_eq_true] at h
  exact h

theorem paidField_facts (p : Bool) :
    sanitizeCSVValue (if p then str "Yes" else str "No")
      = (if p then str "Yes" else str "No")
    ∧ parseCSVValue (if p then str "Yes" else str "No")
      = (if p then str "Yes" else str "No")
    ∧ safeField (if p then str "Yes" else str "No") := by
  cases p
  · simp only [Bool.false_eq_true, if_false]
    exact fieldFacts_no
  · simp only [if_true]
    exact fieldFacts_yes

theorem billRow_facts {b : Bill} (h : reimportableBill b = true) :
    includesStr (billRow b) (str "===") = false
    ∧ includesStr (billRow b) (str "---") = false
    ∧ includesStr (toLowerStr (billRow b)) (str "export") = false
    ∧ includesStr (toLowerStr (billRow b)) (str "money for nothing") = false
    ∧ '\n' ∉ billRow b ∧ '\r' ∉ billRow b
    ∧ trimStr (billRow b) = billRow b
    ∧ billRow b ≠ []
    ∧ parseCSVLine (billRow b)
        = [b.name, numToString b.amount, if b.paid then str "Yes" else str "No"] := by
  obtain ⟨hn, ha⟩ := reimportableBill_spec h
  have h0a : (0 : ℚ) ≤ b.amount := le_of_lt (validateAmount_spec ha).1
  obtain ⟨hn1, hn2, hn3⟩ := fieldFacts_name hn
  obtain ⟨ha1, ha2, ha3, ha4⟩ := fieldFacts_num b.amount h0a
  obtain ⟨hp1, hp2, hp3⟩ := paidField_facts b.paid
  have hsafe : ∀ f ∈ sanitizeCSVValue b.name ::
      [sanitizeCSVValue (numToString b.amount),
       sanitizeCSVValue (if b.paid then str "Yes" else str "No")],
      safeField f := by
    intro f hf
    simp only [List.mem_cons, List.not_mem_nil, or_false] at hf
    rcases hf with rfl | rfl | rfl
    · exact hn2
    · rw [ha1]; exact ha3
    · rw [hp1]; exact hp3
  obtain ⟨r1, r2, r3, r4, r5, r6, r7, r8, r9⟩ := row_facts hn3 hsafe
  refine ⟨r1, r2, r3, r4, r5, r6, r7, r8, ?_⟩
  rw [show billRow b = joinComma (sanitizeCSVValue b.name ::
      [sanitizeCSVValue (numToString b.amount),
       sanitizeCSVValue (if b.paid then str "Yes" else str "No")]) from rfl, r9]
  simp only [List.map_cons, List.map_nil]
  rw [hn1, ha1, ha2, hp1, hp2]

theorem reimportableSavings_spec {s : Savings} (h : reimportableSavings s = true) :
    reimportableName s.name = true ∧ validateNonNegativeAmount s.amount = true := by
  simp only [reimportableSavings, Bool.and_eq_true] at h
  exact h

theorem savingsRow_facts {s : Savings} (h : reimportableSavings s = true) :
    includesStr (savingsRow s) (str "===") = false
    ∧ includesStr (savingsRow s) (str "---") = false
    ∧ includesStr (toLowerStr (savingsRow s)) (str "export") = false
    ∧ includesStr (toLowerStr (savingsRow s)) (str "money for nothing") = false
    ∧ '\n' ∉ savingsRow s ∧ '\r' ∉ savingsRow s
    ∧ trimStr (savingsRow s) = savingsRow s
    ∧ savingsRow s ≠ []
    ∧ parseCSVLine (savingsRow s) = [s.name, numToString s.amount] := by
  obtain ⟨hn, ha⟩ := reimportableSavings_spec h
  have h0a : (0 : ℚ) ≤ s.amount := (validateNonNegativeAmount_spec ha).1
  obtain ⟨hn1, hn2, hn3⟩ := fieldFacts_name hn
  obtain ⟨ha1, ha2, ha3, ha4⟩ := fieldFacts_num s.amount h0a
  have hsafe : ∀ f ∈ sanitizeCSVValue s.name ::
      [sanitizeCSVValue (numToString s.amount)], safeField f := by
    intro f hf
    simp only [List.mem_cons, List.not_mem_nil, or_false] at hf
    rcases hf with rfl | rfl
    · exact hn2
    · rw [ha1]; exact ha3
  obtain ⟨r1, r2, r3, r4, r5, r6, r7, r8, r9⟩ := row_facts hn3 hsafe
  refine ⟨r1, r2, r3, r4, r5, r6, r7, r8, ?_⟩
  rw [show savingsRow s = joinComma (sanitizeCSVValue s.name ::
      [sanitizeCSVValue (numToString s.amount)]) from rfl, r9]
  simp only [List.map_cons, List.map_nil]
  rw [hn1, ha1, ha2]

theorem reimportableHistory_spec {e : SavingsHistoryEntry}
    (h : reimportableHistory e = true) :
    isMonthFormat e.month = true ∧ 0 ≤ e.total ∧ (e.total * 100).den = 1 := by
  simp only [reimportableHistory, isTwoDecimal, Bool.and_eq_true,
    decide_eq_true_eq] at h
  exact ⟨h.1.1, h.1.2, h.2⟩

theorem historyRow_facts {e : SavingsHistoryEntry}
    (h : reimportableHistory e = true) :
    includesStr (historyRow e) (str "===") = false
    ∧ includesStr (historyRow e) (str "---") = false
    ∧ includesStr (toLowerStr (historyRow e)) (str "export") = false
    ∧ includesStr (toLowerStr (historyRow e)) (str "money for nothing") = false
    ∧ '\n' ∉ historyRow e ∧ '\r' ∉ historyRow e
    ∧ trimStr (historyRow e) = historyRow e
    ∧ historyRow e ≠ []
    ∧ parseCSVLine (historyRow e) = [e.month, numToString e.total] := by
  obtain ⟨hm, h0t, hden⟩ := reimportableHistory_spec h
  obtain ⟨hm1, hm2, hm3, hm4⟩ := fieldFacts_month hm
  obtain ⟨ht1, ht2, ht3, ht4⟩ := fieldFacts_num e.total h0t
  have hsafe : ∀ f ∈ sanitizeCSVValue e.month ::
      [sanitizeCSVValue (numToString e.total)], safeField f := by
    intro f hf
    simp only [List.mem_cons, List.not_mem_nil, or_false] at hf
    rcases hf with rfl | rfl
    · rw [hm1]; exact hm3
    · rw [ht1]; exact ht3
  have hmne : sanitizeCSVValue e.month ≠ [] := by rw [hm1]; exact hm4
  obtain ⟨r1, r2, r3, r4, r5, r6, r7, r8, r9⟩ := row_facts hmne hsafe
  refine ⟨r1, r2, r3, r4, r5, r6, r7, r8, ?_⟩
  rw [show historyRow e = joinComma (sanitizeCSVValue e.month ::
      [sanitizeCSVValue (numToString e.total)]) from rfl, r9]
  simp only [List.map_cons, List.map_nil]
  rw [hm1, hm2, ht1, ht2]

theorem processLine_blank (st : ScanState) : processLine st [] = st := rfl

theorem processLine_sec_income (c : CsvSection) (hk : Bool) (I : List Income)
    (B : List Bill) (S : List Savings) (H : List SavingsHistoryEntry) (M : Str) :
    processLine ⟨c, hk, I, B, S, H, M⟩ (str "--- INCOME ---")
      = ⟨.income, false, I, B, S, H, M⟩ := by
  with_unfolding_all rfl

theorem processLine_sec_bills (c : CsvSection) (hk : Bool) (I : List Income)
    (B : List Bill) (S : List Savings) (H : List SavingsHistoryEntry) (M : Str) :
    processLine ⟨c, hk, I, B, S, H, M⟩ (str "--- BILLS ---")
      = ⟨.bills, false, I, B, S, H, M⟩ := by
  with_unfolding_all rfl

theorem processLine_sec_savings (c : CsvSection) (hk : Bool) (I : List Income)
    (B : List Bill) (S : List Savings) (H : List SavingsHistoryEntry) (M : Str) :
    processLine ⟨c, hk, I, B, S, H, M⟩ (str "--- SAVINGS ---")
      = ⟨.savings, false, I, B, S, H, M⟩ := by
  with_unfolding_all rfl

theorem processLine_sec_history (c : CsvSection) (hk : Bool) (I : List Income)
    (B : List Bill) (S : List Savings) (H : List SavingsHistoryEntry) (M : Str) :
    processLine ⟨c, hk, I, B, S, H, M⟩ (str "--- SAVINGS HISTORY ---")
      = ⟨.history, false, I, B, S, H, M⟩ := by
  with_unfolding_all rfl

theorem processLine_col_income (I : List Income) (B : List Bill)
    (S : List Savings) (H : List SavingsHistoryEntry) (M : Str) :
    processLine ⟨.income, false, I, B, S, H, M⟩
      (str "Name,Default Amount,Current Amount,Paycheck Number")
      = ⟨.income, true, I, B, S, H, M⟩ := by
  with_unfolding_all rfl

theorem processLine_col_bills (I : List Income) (B : List Bill)
    (S : List Savings) (H : List SavingsHistoryEntry) (M : Str) :
    processLine ⟨.bills, false, I, B, S, H, M⟩ (str "Name,Amount,Paid")
      = ⟨.bills, true, I, B, S, H, M⟩ := by
  with_unfolding_all rfl

theorem processLine_col_savings (I : List Income) (B : List Bill)
    (S : List Savings) (H : List SavingsHistoryEntry) (M : Str) :
    processLine ⟨.savings, false, I, B, S, H, M⟩ (str "Name,Amount")
      = ⟨.savings, true, I, B, S, H, M⟩ := by
  with_unfolding_all rfl

theorem processLine_col_history (I : List Income) (B : List Bill)
    (S : List Savings) (H : List SavingsHistoryEntry) (M : Str) :
    processLine ⟨.history, false, I, B, S, H, M⟩ (str "Month,Total")
      = ⟨.history, true, I, B, S, H, M⟩ := by
  with_unfolding_all rfl

theorem fmtMonthSafe_spec {fm : Str} (hfmt : fmtMonthSafe fm = true) :
    fm ≠ [] ∧ trimStr fm = fm ∧ '\n' ∉ fm ∧ '\r' ∉ fm
    ∧ includesStr fm (str "===") = false
    ∧ includesStr fm (str "---") = false := by
  simp only [fmtMonthSafe, Bool.and_eq_true, Bool.not_eq_true',
    decide_eq_true_eq] at hfmt
  exact ⟨hfmt.1.1.1.1.1, hfmt.1.1.1.1.2, hfmt.1.1.1.2, hfmt.1.1.2,
    hfmt.1.2, hfmt.2⟩

theorem processLine_export_header (st : ScanState) {fm : Str}
    (hfmt : fmtMonthSafe fm = true) :
    processLine st (str "Money For Nothing Export - " ++ fm) = st := by
  obtain ⟨hfne, hftrim, hfnl, hfcr, h3, h4⟩ := fmtMonthSafe_spec hfmt
  have hAlast : (str "Money For Nothing Export - ").getLast? = some ' ' := by
    decide
  have hinc3 : includesStr (str "Money For Nothing Export - " ++ fm)
      (str "===") = false := by
    refine includes_uniform_append_false (x := '=') (by decide) ?_ (by decide) h3
    intro c hc
    rw [hAlast] at hc
    injection hc with h1
    rw [← h1]
    decide
  have hinc4 : includesStr (str "Money For Nothing Export - " ++ fm)
      (str "---") = false := by
    refine includes_uniform_append_false (x := '-') (by decide) ?_ (by decide) h4
    intro c hc
    rw [hAlast] at hc
    injection hc with h1
    rw [← h1]
    decide
  have hne : str "Money For Nothing Export - " ++ fm ≠ [] := by
    rw [show (str "Money For Nothing Export - ")
        = 'M' :: (str "oney For Nothing Export - ") by decide]
    simp
  have hmfn : includesStr (toLowerStr (str "Money For Nothing Export - " ++ fm))
      (str "money for nothing") = true := by
    rw [toLowerStr_append,
      show toLowerStr (str "Money For Nothing Export - ")
        = str "money for nothing export - " by decide]
    refine includes_of_isPrefixOf ?_
    rw [List.isPrefixOf_iff_prefix]
    refine ⟨str " export - " ++ toLowerStr fm, ?_⟩
    rw [← List.append_assoc,
      show str "money for nothing" ++ str " export - "
        = str "money for nothing export - " by decide]
  simp only [processLine]
  rw [if_neg hne]
  simp only [hinc3, hinc4, hmfn, Bool.or_self, Bool.false_eq_true, false_and,
    if_false, Bool.true_or, not_false_eq_true, true_and, and_true, if_true,
    eq_self_iff_true, and_self]

theorem processLine_income_row {i : Income} (h : reimportableIncome i = true)
    (I : List Income) (B : List Bill) (S : List Savings)
    (H : List SavingsHistoryEntry) (M : Str) :
    processLine ⟨.income, true, I, B, S, H, M⟩ (incomeRow i)
      = ⟨.income, true, I ++ [reimportIncome i], B, S, H, M⟩ := by
  obtain ⟨r1, r2, r3, r4, r5, r6, r7, r8, r9⟩ := incomeRow_facts h
  obtain ⟨hn, hd, hc, hp⟩ := reimportableIncome_spec h
  have hnne : i.name ≠ [] := (reimportableName_spec hn).1
  have hd0 := validateAmount_spec hd
  have hc0 := validateAmount_spec hc
  have hdparse := parseFloatJS_numToString i.defaultAmount (le_of_lt hd0.1) hd0.2
  have hcparse := parseFloatJS_numToString i.currentAmount (le_of_lt hc0.1) hc0.2
  simp only [processLine]
  rw [if_neg r8]
  simp only [r1, r2, r3, r4, r9, Bool.or_self, Bool.false_eq_true, false_and,
    if_false, not_true, and_false, true_and, List.length_cons, List.length_nil,
    List.headD_cons, List.getD_cons_succ, List.getD_cons_zero]
  rw [if_neg (by rintro (h1 | ⟨h1, _⟩) <;> omega)]
  rw [if_pos hnne]
  rw [hdparse, jsOrElse_some_ne _ (ne_of_gt hd0.1)]
  rw [if_pos (by omega), hcparse, jsOrElse_some_ne _ (ne_of_gt hc0.1)]
  rcases hp with hx | hx | hx
  · rw [hx]
    simp only [paycheckNumberToString, if_true]
    rw [reimportIncome, hx]
  · rw [hx]
    simp only [paycheckNumberToString, natToStr_one]
    rw [reimportIncome, hx]
    simp [show parseIntJS ['1'] = some 1 by decide]
  · rw [hx]
    simp only [paycheckNumberToString, natToStr_two]
    rw [reimportIncome, hx]
    simp [show parseIntJS ['2'] = some 2 by decide]

theorem processLine_bill_row {b : Bill} (h : reimportableBill b = true)
    (I : List Income) (B : List Bill) (S : List Savings)
    (H : List SavingsHistoryEntry) (M : Str) :
    processLine ⟨.bills, true, I, B, S, H, M⟩ (billRow b)
      = ⟨.bills, true, I, B ++ [reimportBill b], S, H, M⟩ := by
  obtain ⟨r1, r2, r3, r4, r5, r6, r7, r8, r9⟩ := billRow_facts h
  obtain ⟨hn, ha⟩ := reimportableBill_spec h
  have hnne : b.name ≠ [] := (reimportableName_spec hn).1
  have ha0 := validateAmount_spec ha
  have haparse := parseFloatJS_numToString b.amount (le_of_lt ha0.1) ha0.2
  simp only [processLine]
  rw [if_neg r8]
  simp only [r1, r2, r3, r4, r9, Bool.or_self, Bool.false_eq_true, false_and,
    if_false, not_true, and_false, true_and, List.length_cons, List.length_nil,
    List.headD_cons, List.getD_cons_succ, List.getD_cons_zero]
  rw [if_neg (by rintro (h1 | ⟨h1, _⟩) <;> omega)]
  rw [if_pos hnne]
  rw [haparse, jsOrElse_some_ne _ (ne_of_gt ha0.1)]
  cases hpx : b.paid
  · rw [reimportBill, hpx]
    simp only [Bool.false_eq_true, if_false]
    rw [show toLowerStr (str "No") = str "no" by decide]
    simp
    try decide
  · rw [reimportBill, hpx]
    simp only [if_true]
    rw [show toLowerStr (str "Yes") = str "yes" by decide]
    simp
    try decide

theorem processLine_savings_row {s : Savings} (h : reimportableSavings s = true)
    (I : List Income) (B : List Bill) (S : List Savings)
    (H : List SavingsHistoryEntry) (M : Str) :
    processLine ⟨.savings, true, I, B, S, H, M⟩ (savingsRow s)
      = ⟨.savings, true, I, B, S ++ [reimportSavings s], H, M⟩ := by
  obtain ⟨r1, r2, r3, r4, r5, r6, r7, r8, r9⟩ := savingsRow_facts h
  obtain ⟨hn, ha⟩ := reimportableSavings_spec h
  have hnne : s.name ≠ [] := (reimportableName_spec hn).1
  have ha0 := validateNonNegativeAmount_spec ha
  have haparse := parseFloatJS_numToString s.amount ha0.1 ha0.2
  simp only [processLine]
  rw [if_neg r8]
  simp only [r1, r2, r3, r4, r9, Bool.or_self, Bool.false_eq_true, false_and,
    if_false, not_true, and_false, true_and, List.length_cons, List.length_nil,
    List.headD_cons, List.getD_cons_succ, List.getD_cons_zero]
  rw [if_neg (by rintro (h1 | ⟨h1, _⟩) <;> omega)]
  rw [if_pos hnne]
  rw [haparse, jsOrElse_some_zero, reimportSavings]

theorem processLine_history_row {e : SavingsHistoryEntry}
    (h : reimportableHistory e = true)
    (I : List Income) (B : List Bill) (S : List Savings)
    (H : List SavingsHistoryEntry) (M : Str) :
    processLine ⟨.history, true, I, B, S, H, M⟩ (historyRow e)
      = ⟨.history, true, I, B, S, H ++ [e],
         if M = [] ∨ strLt M e.month then e.month else M⟩ := by
  obtain ⟨r1, r2, r3, r4, r5, r6, r7, r8, r9⟩ := historyRow_facts h
  obtain ⟨hm, h0t, hden⟩ := reimportableHistory_spec h
  have htparse := parseFloatJS_numToString e.total h0t hden
  simp only [processLine]
  rw [if_neg r8]
  simp only [r1, r2, r3, r4, r9, Bool.or_self, Bool.false_eq_true, false_and,
    if_false, not_true, and_false, true_and, List.length_cons, List.length_nil,
    List.headD_cons, List.getD_cons_succ, List.getD_cons_zero]
  rw [if_neg (by rintro (h1 | ⟨h1, _⟩) <;> omega)]
  rw [if_pos hm]
  rw [htparse, jsOrElse_some_zero]

theorem scan_income_block (L : List Income)
    (h : ∀ i ∈ L, reimportableIncome i = true)
    (I : List Income) (B : List Bill) (S : List Savings)
    (H : List SavingsHistoryEntry) (M : Str) :
    (L.map incomeRow).foldl processLine ⟨.income, true, I, B, S, H, M⟩
      = ⟨.income, true, I ++ L.map reimportIncome, B, S, H, M⟩ := by
  induction L generalizing I with
  | nil => simp
  | cons i t ih =>
    rw [List.map_cons, List.foldl_cons,
      processLine_income_row (h i (List.mem_cons_self i t)),
      ih (fun x hx => h x (List.mem_cons_of_mem i hx))]
    simp

theorem scan_bills_block (L : List Bill)
    (h : ∀ b ∈ L, reimportableBill b = true)
    (I : List Income) (B : List Bill) (S : List Savings)
    (H : List SavingsHistoryEntry) (M : Str) :
    (L.map billRow).foldl processLine ⟨.bills, true, I, B, S, H, M⟩
      = ⟨.bills, true, I, B ++ L.map reimportBill, S, H, M⟩ := by
  induction L generalizing B with
  | nil => simp
  | cons b t ih =>
    rw [List.map_cons, List.foldl_cons,
      processLine_bill_row (h b (List.mem_cons_self b t)),
      ih (fun x hx => h x (List.mem_cons_of_mem b hx))]
    simp

theorem scan_savings_block (L : List Savings)
    (h : ∀ s ∈ L, reimportableSavings s = true)
    (I : List Income) (B : List Bill) (S : List Savings)
    (H : List SavingsHistoryEntry) (M : Str) :
    (L.map savingsRow).foldl processLine ⟨.savings, true, I, B, S, H, M⟩
      = ⟨.savings, true, I, B, S ++ L.map reimportSavings, H, M⟩ := by
  induction L generalizing S with
  | nil => simp
  | cons s t ih =>
    rw [List.map_cons, List.foldl_cons,
      processLine_savings_row (h s (List.mem_cons_self s t)),
      ih (fun x hx => h x (List.mem_cons_of_mem s hx))]
    simp

theorem scan_history_block (L : List SavingsHistoryEntry)
    (h : ∀ e ∈ L, reimportableHistory e = true)
    (I : List Income) (B : List Bill) (S : List Savings)
    (H : List SavingsHistoryEntry) (M : Str) :
    ∃ M2, (L.map historyRow).foldl processLine ⟨.history, true, I, B, S, H, M⟩
      = ⟨.history, true, I, B, S, H ++ L, M2⟩ := by
  induction L generalizing H M with
  | nil => exact ⟨M, by simp⟩
  | cons e t ih =>
    rw [List.map_cons, List.foldl_cons,
      processLine_history_row (h e (List.mem_cons_self e t))]
    obtain ⟨M2, hM2⟩ := ih (fun x hx => h x (List.mem_cons_of_mem e hx))
      (H ++ [e]) (if M = [] ∨ strLt M e.month then e.month else M)
    refine ⟨M2, ?_⟩
    rw [hM2]
    simp

theorem header_line_facts {fm : Str} (hfmt : fmtMonthSafe fm = true) :
    '\n' ∉ (str "Money For Nothing Export - " ++ fm)
    ∧ '\r' ∉ (str "Money For Nothing Export - " ++ fm)
    ∧ trimStr (str "Money For Nothing Export - " ++ fm)
        = str "Money For Nothing Export - " ++ fm := by
  obtain ⟨hfne, hftrim, hfnl, hfcr, hf3, hf4⟩ := fmtMonthSafe_spec hfmt
  refine ⟨?_, ?_, ?_⟩
  · intro habs
    rcases List.mem_append.mp habs with h1 | h1
    · revert h1; decide
    · exact hfnl h1
  · intro habs
    rcases List.mem_append.mp habs with h1 | h1
    · revert h1; decide
    · exact hfcr h1
  · refine trimStr_eq_self_of ?_ ?_
    · intro c hc
      rw [head?_append_ne _ (by decide),
        show (str "Money For Nothing Export - ").head? = some 'M' by decide] at hc
      injection hc with h1
      rw [← h1]
      decide
    · intro c hc
      rw [getLast?_append_ne _ hfne] at hc
      exact last_not_ws_of_trim hftrim hc

theorem generateCSVLines_facts {fmtMonth : Str → Str} {d : AppData}
    (hinc : ∀ i ∈ d.income, reimportableIncome i = true)
    (hbill : ∀ b ∈ d.bills, reimportableBill b = true)
    (hsav : ∀ s ∈ d.savings, reimportableSavings s = true)
    (hhist : ∀ e ∈ d.appState.savingsHistory, reimportableHistory e = true)
    (hfmt : fmtMonthSafe (fmtMonth d.appState.lastSessionMonth) = true) :
    ∀ l ∈ generateCSVLines fmtMonth d, '\n' ∉ l ∧ '\r' ∉ l ∧ trimStr l = l := by
  rw [generateCSVLines]
  simp only [List.forall_mem_append]
  refine ⟨⟨⟨⟨⟨⟨⟨⟨⟨⟨?_, ?_⟩, ?_⟩, ?_⟩, ?_⟩, ?_⟩, ?_⟩, ?_⟩, ?_⟩, ?_⟩, ?_⟩
  · intro l hl
    rcases List.mem_cons.mp hl with rfl | hl2
    · exact header_line_facts hfmt
    · rcases List.mem_cons.mp hl2 with rfl | hl3
      · exact ⟨by decide, by decide, by decide⟩
      · cases hl3
  · intro l hl
    rcases List.mem_cons.mp hl with rfl | hl2
    · exact ⟨by decide, by decide, by decide⟩
    · rcases List.mem_cons.mp hl2 with rfl | hl3
      · exact ⟨by decide, by decide, by decide⟩
      · cases hl3
  · intro l hl
    obtain ⟨i, hi, rfl⟩ := List.mem_map.mp hl
    obtain ⟨r1, r2, r3, r4, r5, r6, r7, r8, r9⟩ := incomeRow_facts (hinc i hi)
    exact ⟨r5, r6, r7⟩
  · intro l hl
    rcases List.mem_cons.mp hl with rfl | hl2
    · exact ⟨by decide, by decide, by decide⟩
    · cases hl2
  · intro l hl
    rcases List.mem_cons.mp hl with rfl | hl2
    · exact ⟨by decide, by decide, by decide⟩
    · rcases List.mem_cons.mp hl2 with rfl | hl3
      · exact ⟨by decide, by decide, by decide⟩
      · cases hl3
  · intro l hl
    obtain ⟨b, hb, rfl⟩ := List.mem_map.mp hl
    obtain ⟨r1, r2, r3, r4, r5, r6, r7, r8, r9⟩ := billRow_facts (hbill b hb)
    exact ⟨r5, r6, r7⟩
  · intro l hl
    rcases List.mem_cons.mp hl with rfl | hl2
    · exact ⟨by decide, by decide, by decide⟩
    · cases hl2
  · intro l hl
    rcases List.mem_cons.mp hl with rfl | hl2
    · exact ⟨by decide, by decide, by decide⟩
    · rcases List.mem_cons.mp hl2 with rfl | hl3
      · exact ⟨by decide, by decide, by decide⟩
      · cases hl3
  · intro l hl
    obtain ⟨s, hs, rfl⟩ := List.mem_map.mp hl
    obtain ⟨r1, r2, r3, r4, r5, r6, r7, r8, r9⟩ := savingsRow_facts (hsav s hs)
    exact ⟨r5, r6, r7⟩
  · intro l hl
    rcases List.mem_cons.mp hl with rfl | hl2
    · exact ⟨by decide, by decide, by decide⟩
    · cases hl2
  · intro l hl
    by_cases hH : 0 < d.appState.savingsHistory.length
    · rw [if_pos hH] at hl
      rcases List.mem_append.mp hl with h1 | h1
      · rcases List.mem_cons.mp h1 with rfl | hl2
        · exact ⟨by decide, by decide, by decide⟩
        · rcases List.mem_cons.mp hl2 with rfl | hl3
          · exact ⟨by decide, by decide, by decide⟩
          · cases hl3
      · obtain ⟨e, he, rfl⟩ := List.mem_map.mp h1
        obtain ⟨r1, r2, r3, r4, r5, r6, r7, r8, r9⟩ := historyRow_facts (hhist e he)
        exact ⟨r5, r6, r7⟩
    · rw [if_neg hH] at hl
      cases hl

theorem scan_lines_eq {fmtMonth : Str → Str} {d : AppData}
    (hinc : ∀ i ∈ d.income, reimportableIncome i = true)
    (hbill : ∀ b ∈ d.bills, reimportableBill b = true)
    (hsav : ∀ s ∈ d.savings, reimportableSavings s = true)
    (hhist : ∀ e ∈ d.appState.savingsHistory, reimportableHistory e = true)
    (hfmt : fmtMonthSafe (fmtMonth d.appState.lastSessionMonth) = true) :
    (splitOnChar '\n' (normalizeNewlines (generateCSV fmtMonth d))).map trimStr
      = generateCSVLines fmtMonth d := by
  have hfacts := generateCSVLines_facts hinc hbill hsav hhist hfmt
  have hcr : '\r' ∉ joinLines (generateCSVLines fmtMonth d) := by
    intro habs
    rcases mem_joinLines habs with h1 | ⟨l, hl, hc⟩
    · cases h1
    · exact (hfacts l hl).2.1 hc
  have hlne : generateCSVLines fmtMonth d ≠ [] := by
    rw [generateCSVLines]
    simp
  rw [generateCSV, normalizeNewlines_eq_self hcr,
    splitOnChar_joinLines _ hlne (fun l hl => (hfacts l hl).1)]
  conv_rhs => rw [← List.map_id (generateCSVLines fmtMonth d)]
  exact List.map_congr_left (fun l hl => (hfacts l hl).2.2)

theorem scanCSV_generate {fmtMonth : Str → Str} {d : AppData}
    (hinc : ∀ i ∈ d.income, reimportableIncome i = true)
    (hbill : ∀ b ∈ d.bills, reimportableBill b = true)
    (hsav : ∀ s ∈ d.savings, reimportableSavings s = true)
    (hhist : ∀ e ∈ d.appState.savingsHistory, reimportableHistory e = true)
    (hfmt : fmtMonthSafe (fmtMonth d.appState.lastSessionMonth) = true) :
    ∃ sec hsk M2, scanCSV (generateCSV fmtMonth d)
      = ⟨sec, hsk, d.income.map reimportIncome, d.bills.map reimportBill,
         d.savings.map reimportSavings, d.appState.savingsHistory, M2⟩ := by
  rw [scanCSV, scan_lines_eq hinc hbill hsav hhist hfmt,
    show initScanState = ⟨.noSection, false, [], [], [], [], []⟩ from rfl,
    generateCSVLines]
  simp only [List.foldl_append, List.foldl_cons, List.foldl_nil]
  rw [processLine_export_header _ hfmt, processLine_blank,
    processLine_sec_income, processLine_col_income,
    scan_income_block _ hinc, processLine_blank,
    processLine_sec_bills, processLine_col_bills,
    scan_bills_block _ hbill, processLine_blank,
    processLine_sec_savings, processLine_col_savings,
    scan_savings_block _ hsav, processLine_blank]
  by_cases hH : 0 < d.appState.savingsHistory.length
  · rw [if_pos hH]
    simp only [List.foldl_append, List.foldl_cons, List.foldl_nil]
    rw [processLine_sec_history, processLine_col_history]
    obtain ⟨M2, hM2⟩ := scan_history_block d.appState.savingsHistory hhist
      ([] ++ d.income.map reimportIncome) ([] ++ d.bills.map reimportBill)
      ([] ++ d.savings.map reimportSavings) [] []
    rw [hM2]
    exact ⟨.history, true, M2, by simp⟩
  · rw [if_neg hH]
    have hHnil : d.appState.savingsHistory = [] := by
      cases hx : d.appState.savingsHistory with
      | nil => rfl
      | cons e t => rw [hx] at hH; simp at hH
    refine ⟨.savings, true, [], ?_⟩
    rw [List.foldl_nil, hHnil]
    simp

theorem digits_ten_2500 : Nat.digits 10 2500 = [0, 0, 5, 2] := by norm_num

theorem digits_ten_100 : Nat.digits 10 100 = [0, 0, 1] := by norm_num

theorem natToStr_2500 : natToStr 2500 = str "2500" := by
  rw [natToStr, if_neg (by norm_num), digits_ten_2500]
  with_unfolding_all rfl

theorem natToStr_100 : natToStr 100 = str "100" := by
  rw [natToStr, if_neg (by norm_num), digits_ten_100]
  with_unfolding_all rfl

theorem numToString_nat (k : ℕ) : numToString ((k : ℕ) : ℚ) = natToStr k := by
  simp only [numToString]
  rw [abs_of_nonneg (by positivity : (0 : ℚ) ≤ ((k : ℕ) : ℚ)),
    show (((k : ℕ) : ℚ) * 100) = (((k * 100 : ℕ) : ℕ) : ℚ) by push_cast; ring,
    Rat.num_natCast, Int.toNat_natCast, Nat.mul_mod_left,
    Nat.mul_div_cancel k (by norm_num : 0 < 100),
    if_pos rfl, if_neg (not_lt.mpr (by positivity : (0 : ℚ) ≤ ((k : ℕ) : ℚ))),
    List.nil_append]

theorem numToString_2500 : numToString (2500 : ℚ) = str "2500" := by
  rw [show (2500 : ℚ) = ((2500 : ℕ) : ℚ) by norm_num, numToString_nat,
    natToStr_2500]

theorem numToString_100 : numToString (100 : ℚ) = str "100" := by
  rw [show (100 : ℚ) = ((100 : ℕ) : ℚ) by norm_num, numToString_nat,
    natToStr_100]

theorem incomeRow_paycheck1 :
    incomeRow ⟨str "i1", str "Paycheck 1", 2500, 2500, some 1⟩
      = str "Paycheck 1,2500,2500,1" := by
  simp only [incomeRow, numToString_2500]
  with_unfolding_all rfl

theorem savingsRow_export :
    savingsRow ⟨str "s1", str "export", 100⟩ = str "export,100" := by
  simp only [savingsRow, numToString_100]
  with_unfolding_all rfl

theorem generateCSVLines_exportNameData :
    generateCSVLines fmtDec exportNameData
      = [str "Money For Nothing Export - December 2024", [],
         str "--- INCOME ---",
         str "Name,Default Amount,Current Amount,Paycheck Number",
         str "Paycheck 1,2500,2500,1", [],
         str "--- BILLS ---", str "Name,Amount,Paid", [],
         str "--- SAVINGS ---", str "Name,Amount", str "export,100", []] := by
  rw [generateCSVLines]
  rw [show exportNameData.income = [⟨str "i1", str "Paycheck 1", 2500, 2500, some 1⟩]
      from rfl,
    show exportNameData.bills = [] from rfl,
    show exportNameData.savings = [⟨str "s1", str "export", 100⟩] from rfl,
    show exportNameData.appState.savingsHistory = ([] : List SavingsHistoryEntry)
      from rfl,
    show fmtDec exportNameData.appState.lastSessionMonth = str "December 2024"
      from rfl]
  rw [List.map_cons, List.map_nil, incomeRow_paycheck1,
    List.map_cons, List.map_nil, savingsRow_export, List.map_nil]
  rw [if_neg (by norm_num)]
  with_unfolding_all rfl

/-! ## Claim theorems -/

/-- C1: the `PERFORM_MONTHLY_RESET` transition resets every income record's
`currentAmount` to its `defaultAmount`, clears every bill's `paid` flag,
appends a savings-history entry carrying the outgoing `lastSessionMonth`
and the pre-transition savings total (keeping at most the last 12 entries),
advances `lastSessionMonth` to the wall-clock month, and leaves the savings
records unchanged. -/
theorem perform_monthly_reset_correct (now : Str) (s : AppData) :
    (appReducer now s .performMonthlyReset).income
        = s.income.map (fun inc => { inc with currentAmount := inc.defaultAmount })
  ∧ (∀ inc ∈ (appReducer now s .performMonthlyReset).income,
        inc.currentAmount = inc.defaultAmount)
  ∧ (appReducer now s .performMonthlyReset).bills
        = s.bills.map (fun bill => { bill with paid := false })
  ∧ (∀ bill ∈ (appReducer now s .performMonthlyReset).bills, bill.paid = false)
  ∧ (appReducer now s .performMonthlyReset).savings = s.savings
  ∧ (appReducer now s .performMonthlyReset).appState.lastSessionMonth = now
  ∧ (appReducer now s .performMonthlyReset).appState.savingsHistory
        = sliceLast12 (s.appState.savingsHistory
            ++ [⟨s.appState.lastSessionMonth, savingsTotal s.savings⟩])
  ∧ (appReducer now s .performMonthlyReset).appState.savingsHistory.getLast?
        = some ⟨s.appState.lastSessionMonth, savingsTotal s.savings⟩ := by
  refine ⟨rfl, ?_, rfl, ?_, rfl, rfl, rfl, ?_⟩
  · intro inc hmem
    simp only [appReducer, List.mem_map] at hmem
    obtain ⟨i0, _, rfl⟩ := hmem
    rfl
  · intro bill hmem
    simp only [appReducer, List.mem_map] at hmem
    obtain ⟨b0, _, rfl⟩ := hmem
    rfl
  · exact getLast?_sliceLast12_concat _ _

/-- Witness for C1 at the spec's example vector. -/
theorem perform_monthly_reset_correct_witness :
    (appReducer (str "2024-12") exResetState .performMonthlyReset).appState.savingsHistory.getLast?
        = some ⟨str "2024-11", 5000⟩
  ∧ (appReducer (str "2024-12") exResetState .performMonthlyReset).appState.lastSessionMonth
        = str "2024-12"
  ∧ (∀ bill ∈ (appReducer (str "2024-12") exResetState .performMonthlyReset).bills,
        bill.paid = false) := by
  have h := perform_monthly_reset_correct (str "2024-12") exResetState
  refine ⟨?_, h.2.2.2.2.2.1, h.2.2.2.1⟩
  rw [h.2.2.2.2.2.2.2]
  with_unfolding_all rfl

/-- C5: running the check-and-perform rollover sequence twice with the same
wall-clock month yields the same state as running it once. -/
theorem check_and_reset_idempotent (now : Str) (s : AppData) :
    checkAndReset now (checkAndReset now s) = checkAndReset now s := by
  by_cases h : s.appState.lastSessionMonth = now
  · simp [checkAndReset, checkNeedsMonthlyReset, h]
  · have hr : (appReducer now s .performMonthlyReset).appState.lastSessionMonth = now := rfl
    simp [checkAndReset, checkNeedsMonthlyReset, h, hr]

/-- C6 counterexample: the raw `DELETE_INCOME` reducer case removes a record
tagged with a `paycheckNumber` when given its id — the protection lives in
the income modal, not in the core operation. -/
theorem delete_income_removes_paycheck :
    exInitState.income.any (fun inc => inc.paycheckNumber = some 1) = true
  ∧ (appReducer (str "2025-10") exInitState (.deleteIncome (str "id1"))).income.all
        (fun inc => inc.paycheckNumber ≠ some 1) = true := by
  decide

/-- C6 amended: first-run initialization creates exactly the two protected
paychecks with `defaultAmount = currentAmount = 0`; the deletion guard is
the income modal's `handleDeleteIncome`, which refuses records carrying a
`paycheckNumber`, and a guarded deletion keeps every tagged record whose id
differs from the deleted item's id.  The raw `DELETE_INCOME` reducer case
itself filters purely by id. -/
theorem paycheck_protection_amended (id1 id2 now vs : Str) (s : AppData) (item : Income) :
    (createInitialState id1 id2 now vs).income
        = [ ⟨id1, str "Paycheck 1", 0, 0, some 1⟩,
            ⟨id2, str "Paycheck 2", 0, 0, some 2⟩ ]
  ∧ (item.paycheckNumber ≠ none → handleDeleteIncome now item s = s)
  ∧ (∀ inc ∈ s.income, inc.paycheckNumber ≠ none → inc.id ≠ item.id →
        inc ∈ (handleDeleteIncome now item s).income) := by
  refine ⟨rfl, ?_, ?_⟩
  · intro h
    simp [handleDeleteIncome, h]
  · intro inc hmem _ hid
    by_cases hpn : item.paycheckNumber = none
    · simp only [handleDeleteIncome, hpn, ne_eq, not_true_eq_false, if_false,
        appReducer, List.mem_filter]
      exact ⟨hmem, by simpa using hid⟩
    · simpa [handleDeleteIncome, hpn] using hmem

/-- Witness for the amended C6. -/
theorem paycheck_protection_amended_witness :
    (⟨str "id1", str "Paycheck 1", 0, 0, some 1⟩ : Income)
      ∈ (handleDeleteIncome (str "2025-10")
          ⟨str "x9", str "Side Gig", 40, 40, none⟩ exInitState).income := by
  have h := paycheck_protection_amended (str "id1") (str "id2") (str "2025-10") (str "v0")
    exInitState ⟨str "x9", str "Side Gig", 40, 40, none⟩
  exact h.2.2 ⟨str "id1", str "Paycheck 1", 0, 0, some 1⟩ (by decide) (by decide) (by decide)

/-- C8: bills progress is 0 when nothing is due, otherwise the paid/due
ratio as a percentage rounded half-up; boundary vectors: 100/100 gives 100,
33.33/100 gives 33, a 33.5% ratio gives 34, an empty bill list gives 0. -/
theorem bills_progress_correct (bills : List Bill) :
    ((billsSummary bills).totalDue = 0 → (billsSummary bills).progress = 0)
  ∧ (0 < (billsSummary bills).totalDue →
        (billsSummary bills).progress
          = ⌊(billsSummary bills).totalPaid / (billsSummary bills).totalDue * 100 + 1 / 2⌋)
  ∧ (billsSummary [⟨[], str "a", 100, true⟩]).progress = 100
  ∧ (billsSummary [⟨[], str "a", (33.33 : ℚ), true⟩, ⟨[], str "b", (66.67 : ℚ), false⟩]).progress = 33
  ∧ (billsSummary [⟨[], str "a", 67, true⟩, ⟨[], str "b", 133, false⟩]).progress = 34
  ∧ (billsSummary []).progress = 0 := by
  have hdef : (billsSummary bills).progress
      = if 0 < (billsSummary bills).totalDue
        then jsRound ((billsSummary bills).totalPaid / (billsSummary bills).totalDue * 100)
        else 0 := rfl
  refine ⟨?_, ?_, by with_unfolding_all rfl, by with_unfolding_all rfl,
    by with_unfolding_all rfl, by with_unfolding_all rfl⟩
  · intro h
    rw [hdef, if_neg (by rw [h]; exact lt_irrefl 0)]
  · intro h
    rw [hdef, if_pos h]
    rfl

/-- Witness for C8: a 33.5% paid ratio rounds up to 34. -/
theorem bills_progress_correct_witness :
    (billsSummary [⟨[], str "a", 67, true⟩, ⟨[], str "b", 133, false⟩]).progress
        = ⌊(billsSummary [⟨[], str "a", 67, true⟩, ⟨[], str "b", 133, false⟩]).totalPaid
            / (billsSummary [⟨[], str "a", 67, true⟩, ⟨[], str "b", 133, false⟩]).totalDue
            * 100 + 1 / 2⌋
  ∧ (⌊(67 : ℚ) / 200 * 100 + 1 / 2⌋ : ℤ) = 34 := by
  refine ⟨(bills_progress_correct _).2.1 (of_decide_eq_true (by with_unfolding_all rfl)),
    by with_unfolding_all rfl⟩

/-- C9: the validators reject a 33-character name, an amount with three
decimal places, and a negative bill amount; they accept a zero savings
amount; amounts are capped at 999999999.99, income/bill amounts must be
strictly positive and savings amounts non-negative. -/
theorem validators_boundary :
    validateName (str "ab" ++ List.replicate 31 'X') = false
  ∧ validateAmount (10.005 : ℚ) = false
  ∧ validateAmount (-5 : ℚ) = false
  ∧ validateNonNegativeAmount 0 = true
  ∧ validateAmount (1000000000 : ℚ) = false
  ∧ (∀ q : ℚ, validateAmount q = true → 0 < q ∧ q ≤ (999999999.99 : ℚ))
  ∧ (∀ q : ℚ, validateNonNegativeAmount q = true → 0 ≤ q ∧ q ≤ (999999999.99 : ℚ)) := by
  refine ⟨by decide, by with_unfolding_all rfl, by with_unfolding_all rfl,
    by with_unfolding_all rfl, by with_unfolding_all rfl, ?_, ?_⟩
  · intro q hq
    simp only [validateAmount, Bool.and_eq_true, decide_eq_true_eq] at hq
    exact ⟨hq.1.1, hq.2⟩
  · intro q hq
    simp only [validateNonNegativeAmount, Bool.and_eq_true, decide_eq_true_eq] at hq
    exact ⟨hq.1.1, hq.2⟩

/-- Witness for C9 at the accepted amount 0.01. -/
theorem validators_boundary_witness :
    0 < (0.01 : ℚ) ∧ (0.01 : ℚ) ≤ (999999999.99 : ℚ) :=
  validators_boundary.2.2.2.2.2.1 (0.01 : ℚ) (by with_unfolding_all rfl)

/-- C10: `TOGGLE_BILL_PAID` flips exactly the `paid` flag of the bill with
the given id, keeps its other fields and every other bill, leaves income,
savings and appState untouched, and is the identity for an unknown id. -/
theorem toggle_bill_paid_frame (now id : Str) (s : AppData) :
    (appReducer now s (.toggleBillPaid id)).income = s.income
  ∧ (appReducer now s (.toggleBillPaid id)).savings = s.savings
  ∧ (appReducer now s (.toggleBillPaid id)).appState = s.appState
  ∧ (appReducer now s (.toggleBillPaid id)).bills.length = s.bills.length
  ∧ (∀ n (hn : n < s.bills.length) (hn2 : n < (appReducer now s (.toggleBillPaid id)).bills.length),
        (appReducer now s (.toggleBillPaid id)).bills.get ⟨n, hn2⟩
          = if (s.bills.get ⟨n, hn⟩).id = id
            then { s.bills.get ⟨n, hn⟩ with paid := !(s.bills.get ⟨n, hn⟩).paid }
            else s.bills.get ⟨n, hn⟩)
  ∧ ((∀ bill ∈ s.bills, bill.id ≠ id) → appReducer now s (.toggleBillPaid id) = s) := by
  refine ⟨rfl, rfl, rfl, by simp [appReducer], ?_, ?_⟩
  · intro n hn hn2
    simp [appReducer]
  · intro h
    have hb : ∀ l : List Bill, (∀ bill ∈ l, bill.id ≠ id) →
        l.map (fun bill =>
          if bill.id = id then { bill with paid := !bill.paid } else bill) = l := by
      intro l hl
      induction l with
      | nil => rfl
      | cons b t ih =>
        have hb1 : b.id ≠ id := hl b (List.mem_cons_self b t)
        simp only [List.map_cons, if_neg hb1, List.cons.injEq, true_and]
        exact ih (fun bill hmem => hl bill (List.mem_cons_of_mem b hmem))
    show { s with bills := _ } = s
    rw [hb s.bills h]

/-- Witness for C10: toggling on a two-bill state. -/
theorem toggle_bill_paid_frame_witness :
    (appReducer (str "m") exResetState (.toggleBillPaid (str "b1"))).bills.get
        ⟨0, by decide⟩
      = { (exResetState.bills.get ⟨0, by decide⟩) with
          paid := !(exResetState.bills.get ⟨0, by decide⟩).paid }
  ∧ appReducer (str "m") exResetState (.toggleBillPaid (str "zz")) = exResetState := by
  have h := toggle_bill_paid_frame (str "m") (str "b1") exResetState
  have h2 := toggle_bill_paid_frame (str "m") (str "zz") exResetState
  constructor
  · have h5 := h.2.2.2.2.1 0 (by decide) (by decide)
    rw [h5, if_pos (by decide)]
  · exact h2.2.2.2.2.2 (by decide)

/-- C3 counterexample: the text `hello` yields zero recovered records of
every type, yet `parseCSV` returns a populated `AppData` (with the two
synthesized default paychecks) instead of failure.  The zero-record null
return exists only in the superseded first variant of the parser. -/
theorem parse_failure_counterexample :
    (scanCSV (str "hello")).income = []
  ∧ (scanCSV (str "hello")).bills = []
  ∧ (scanCSV (str "hello")).savings = []
  ∧ parseCSV (str "2025-10") (str "v0") (str "hello")
      = some
        { income := defaultPaychecks
          bills := []
          savings := []
          appState := ⟨str "2025-10", str "v0", true, []⟩ } := by
  refine ⟨rfl, rfl, rfl, rfl⟩

/-- C3 amended: the current `parseCSV` never returns failure — every input
produces a populated `AppData` whose income list is nonempty (the two
default paychecks are synthesized when the scan recovers no income rows)
and whose bills and savings are exactly the scanned records. -/
theorem parse_csv_total (content now vs : Str) :
    ∃ d, parseCSV now vs content = some d
      ∧ d.income ≠ []
      ∧ ((scanCSV content).income = [] → d.income = defaultPaychecks)
      ∧ ((scanCSV content).income ≠ [] → d.income = (scanCSV content).income)
      ∧ d.bills = (scanCSV content).bills
      ∧ d.savings = (scanCSV content).savings := by
  by_cases h : (scanCSV content).income = []
  · refine ⟨_, rfl, ?_, ?_, ?_, ?_, ?_⟩ <;> simp [parseCSV, h, defaultPaychecks]
  · refine ⟨_, rfl, ?_, ?_, ?_, ?_, ?_⟩ <;> simp [parseCSV, h]

/-- Witness for the amended C3 at the unrecognizable input `hello`. -/
theorem parse_csv_total_witness :
    parseCSV (str "2025-10") (str "v0") (str "hello") ≠ none := by
  obtain ⟨d, hd, -⟩ := parse_csv_total (str "hello") (str "2025-10") (str "v0")
  rw [hd]
  exact Option.some_ne_none d

set_option maxRecDepth 4000 in
/-- C4 counterexample: importing a parsed CSV is a core operation, the
fresh-install pre-state has at most 12 history entries, yet the post-state
carries 13 — `parseCSV` does not cap `savingsHistory`, so the import path
breaks the 12-entry invariant. -/
theorem savings_history_cap_counterexample :
    exInitState.appState.savingsHistory.length ≤ 12
  ∧ ((parseCSV (str "2025-10") (str "v0") thirteenHistoryCSV).map
        (fun d => (appReducer (str "2025-10") exInitState
          (.importData d)).appState.savingsHistory.length))
      = some 13 := by
  refine ⟨by decide, ?_⟩
  have hsplit : (splitOnChar '\n' (normalizeNewlines thirteenHistoryCSV)).map trimStr
      = [str "--- SAVINGS ---", str "Name,Amount", str "Fund,1",
         str "--- SAVINGS HISTORY ---", str "Month,Total"]
        ++ List.replicate 13 (str "2024-01,5") := by
    rw [thirteenHistoryCSV, normalizeNewlines_eq_self (by decide),
      splitOnChar_joinLines _ (by decide) (by decide)]
    with_unfolding_all rfl
  have hrowF : processLine ⟨.savings, true, [], [], [], [], []⟩ (str "Fund,1")
      = ⟨.savings, true, [], [], [⟨[], str "Fund", 1⟩], [], []⟩ := by
    with_unfolding_all rfl
  have hrow1 : processLine ⟨.history, true, [], [], [⟨[], str "Fund", 1⟩], [], []⟩
      (str "2024-01,5")
      = ⟨.history, true, [], [], [⟨[], str "Fund", 1⟩],
         [⟨str "2024-01", 5⟩], str "2024-01"⟩ := by
    with_unfolding_all rfl
  have hrowk : ∀ H : List SavingsHistoryEntry,
      processLine ⟨.history, true, [], [], [⟨[], str "Fund", 1⟩], H, str "2024-01"⟩
        (str "2024-01,5")
      = ⟨.history, true, [], [], [⟨[], str "Fund", 1⟩],
         H ++ [⟨str "2024-01", 5⟩], str "2024-01"⟩ :=
    fun H => by with_unfolding_all rfl
  have hfold : ∀ (n : ℕ) (H : List SavingsHistoryEntry),
      (List.replicate n (str "2024-01,5")).foldl processLine
        ⟨.history, true, [], [], [⟨[], str "Fund", 1⟩], H, str "2024-01"⟩
      = ⟨.history, true, [], [], [⟨[], str "Fund", 1⟩],
         H ++ List.replicate n ⟨str "2024-01", 5⟩, str "2024-01"⟩ := by
    intro n
    induction n with
    | zero => intro H; simp
    | succ k ih =>
      intro H
      rw [List.replicate_succ, List.foldl_cons, hrowk H,
        ih (H ++ [(⟨str "2024-01", 5⟩ : SavingsHistoryEntry)]), List.replicate_succ]
      simp
  have hscan : scanCSV thirteenHistoryCSV
      = ⟨.history, true, [], [], [⟨[], str "Fund", 1⟩],
         List.replicate 13 ⟨str "2024-01", 5⟩, str "2024-01"⟩ := by
    rw [scanCSV, hsplit,
      show initScanState = ⟨.noSection, false, [], [], [], [], []⟩ from rfl,
      List.foldl_append]
    simp only [List.foldl_cons, List.foldl_nil]
    simp only [processLine_sec_savings, processLine_col_savings, hrowF,
      processLine_sec_history, processLine_col_history]
    rw [show List.replicate 13 (str "2024-01,5")
        = str "2024-01,5" :: List.replicate 12 (str "2024-01,5") from rfl,
      List.foldl_cons, hrow1, hfold 12]
    rw [show ([⟨str "2024-01", 5⟩] : List SavingsHistoryEntry)
          ++ List.replicate 12 ⟨str "2024-01", 5⟩
        = List.replicate 13 ⟨str "2024-01", 5⟩ from by
      rw [show (13 : ℕ) = 12 + 1 from rfl, List.replicate_succ]
      simp]
  simp only [parseCSV, hscan]
  with_unfolding_all rfl

/-- C4 amended: the 12-entry cap is maintained by the history-append and
monthly-rollover operations (their post-state history never exceeds 12
entries, whatever the pre-state), and appending to a 12-entry history drops
exactly the oldest entry while preserving the order of the rest; the
CSV-import path can exceed the cap. -/
theorem savings_history_cap_amended (now : Str) (s : AppData) (e : SavingsHistoryEntry) :
    (appReducer now s (.addSavingsHistoryEntry e)).appState.savingsHistory.length ≤ 12
  ∧ (appReducer now s .performMonthlyReset).appState.savingsHistory.length ≤ 12
  ∧ (s.appState.savingsHistory.length = 12 →
      (appReducer now s (.addSavingsHistoryEntry e)).appState.savingsHistory
        = s.appState.savingsHistory.tail ++ [e]) := by
  refine ⟨length_sliceLast12_le _, length_sliceLast12_le _, ?_⟩
  intro h
  exact sliceLast12_of_length_twelve _ e h

/-- Witness for the amended C4 on a concrete 12-entry history. -/
theorem savings_history_cap_amended_witness :
    (appReducer (str "m")
        { exInitState with appState := { exInitState.appState with
            savingsHistory := (List.range 12).map
              (fun n => ⟨str "2024-01", (n : ℚ)⟩) } }
        (.addSavingsHistoryEntry ⟨str "2025-01", 7⟩)).appState.savingsHistory
      = ((List.range 12).map (fun n => (⟨str "2024-01", (n : ℚ)⟩ : SavingsHistoryEntry))).tail
          ++ [⟨str "2025-01", 7⟩] := by
  exact (savings_history_cap_amended (str "m") _ _).2.2 (by decide)

/-- C7: a value beginning with `=`, `+`, `-` or `@` is never serialized as
its bare self (the escaped cell starts with a double quote), and the
serialized cell for the literal name `=CMD()` parses back to exactly
`=CMD()`. -/
theorem csv_injection_escape (v : Str) (hv : startsWithFormulaChar v = true) :
    sanitizeCSVValue v ≠ v
  ∧ parseCSVValue (sanitizeCSVValue (str "=CMD()")) = str "=CMD()" := by
  refine ⟨?_, by decide⟩
  cases v with
  | nil => cases hv
  | cons c rest =>
    have hc : c = '=' ∨ c = '+' ∨ c = '-' ∨ c = '@' := by
      have := hv
      simp only [startsWithFormulaChar, Bool.or_eq_true, decide_eq_true_eq] at this
      tauto
    have hcq : c ≠ '"' := by
      rcases hc with h | h | h | h <;> subst h <;> decide
    have h1 : escapeQuotes (c :: rest) = c :: escapeQuotes rest := by
      simp [escapeQuotes, hcq]
    have h2 : sanitizeCSVValue (c :: rest)
        = '"' :: squote :: (c :: escapeQuotes rest) ++ ['"'] := by
      rw [sanitizeCSVValue, h1, if_pos]
      simp only [startsWithFormulaChar]
      rcases hc with h | h | h | h <;> subst h <;> decide
    rw [h2]
    intro heq
    have hhd : '"' = c := by
      have := congrArg (fun l => l.headD ' ') heq
      simpa using this
    rcases hc with h | h | h | h <;> rw [h] at hhd <;> exact absurd hhd (by decide)

/-- Witness for C7 at the literal `=CMD()`. -/
theorem csv_injection_escape_witness :
    sanitizeCSVValue (str "=CMD()") ≠ str "=CMD()"
  ∧ parseCSVValue (sanitizeCSVValue (str "=CMD()")) = str "=CMD()" :=
  csv_injection_escape (str "=CMD()") (by decide)

/-! ## C2: CSV round-trip -/

set_option maxRecDepth 4000 in
/-- C2 counterexample: the name `export` satisfies the validation schemas
(letters only, trimmed, in range), yet the serialized savings record named
`export` disappears on re-import: the parser unconditionally skips any
non-section line whose lowercase form contains `export` (or
`money for nothing`), so `parse(serialize(x))` loses the record. -/
theorem csv_round_trip_counterexample :
    validateName (str "export") = true
  ∧ trimStr (str "export") = str "export"
  ∧ validateNonNegativeAmount (100 : ℚ) = true
  ∧ exportNameData.savings.map savingsContent = [(str "export", (100 : ℚ))]
  ∧ ((parseCSV (str "2024-12") (str "v0") (generateCSV fmtDec exportNameData)).map
        (fun d => d.savings.map savingsContent)) = some [] := by
  refine ⟨by decide, by decide, by with_unfolding_all rfl,
    by with_unfolding_all rfl, ?_⟩
  have hgen : generateCSV fmtDec exportNameData
      = joinLines
        [str "Money For Nothing Export - December 2024", [],
         str "--- INCOME ---",
         str "Name,Default Amount,Current Amount,Paycheck Number",
         str "Paycheck 1,2500,2500,1", [],
         str "--- BILLS ---", str "Name,Amount,Paid", [],
         str "--- SAVINGS ---", str "Name,Amount", str "export,100", []] := by
    rw [generateCSV, generateCSVLines_exportNameData]
  have hsplit : (splitOnChar '\n' (normalizeNewlines
      (generateCSV fmtDec exportNameData))).map trimStr
      = [str "Money For Nothing Export - December 2024", [],
         str "--- INCOME ---",
         str "Name,Default Amount,Current Amount,Paycheck Number",
         str "Paycheck 1,2500,2500,1", [],
         str "--- BILLS ---", str "Name,Amount,Paid", [],
         str "--- SAVINGS ---", str "Name,Amount", str "export,100", []] := by
    rw [hgen, normalizeNewlines_eq_self (by decide),
      splitOnChar_joinLines _ (by decide) (by decide)]
    with_unfolding_all rfl
  have hstep1 : ∀ st : ScanState,
      processLine st (str "Money For Nothing Export - December 2024") = st :=
    fun st => by with_unfolding_all rfl
  have hstepinc : processLine ⟨.income, true, [], [], [], [], []⟩
      (str "Paycheck 1,2500,2500,1")
      = ⟨.income, true, [⟨[], str "Paycheck 1", 2500, 2500, some 1⟩],
         [], [], [], []⟩ := by
    with_unfolding_all rfl
  have hstepexp : processLine
      ⟨.savings, true, [⟨[], str "Paycheck 1", 2500, 2500, some 1⟩], [], [], [], []⟩
      (str "export,100")
      = ⟨.savings, true, [⟨[], str "Paycheck 1", 2500, 2500, some 1⟩],
         [], [], [], []⟩ := by
    with_unfolding_all rfl
  have hscan : scanCSV (generateCSV fmtDec exportNameData)
      = ⟨.savings, true, [⟨[], str "Paycheck 1", 2500, 2500, some 1⟩],
         [], [], [], []⟩ := by
    rw [scanCSV, hsplit,
      show initScanState = ⟨.noSection, false, [], [], [], [], []⟩ from rfl]
    simp only [List.foldl_cons, List.foldl_nil]
    simp only [hstep1, processLine_blank, processLine_sec_income,
      processLine_col_income, hstepinc, processLine_sec_bills,
      processLine_col_bills, processLine_sec_savings, processLine_col_savings,
      hstepexp]
  simp only [parseCSV, hscan]
  with_unfolding_all rfl

set_option maxHeartbeats 1000000 in
/-- C2 (amended): for schema-valid data with reimportable names, a nonempty
income list, well-formed history months and a benign month formatter,
`parseCSV` restores from `generateCSV` output the same income, bill and
savings record contents (ids are regenerated) and the same history. -/
theorem csv_round_trip (now vs : Str) (fmtMonth : Str → Str) (d : AppData)
    (hinc : d.income.all reimportableIncome = true)
    (hbill : d.bills.all reimportableBill = true)
    (hsav : d.savings.all reimportableSavings = true)
    (hhist : d.appState.savingsHistory.all reimportableHistory = true)
    (hfmt : fmtMonthSafe (fmtMonth d.appState.lastSessionMonth) = true)
    (hne : d.income ≠ []) :
    ∃ d2 : AppData,
      parseCSV now vs (generateCSV fmtMonth d) = some d2
      ∧ d2.income.map incomeContent = d.income.map incomeContent
      ∧ d2.bills.map billContent = d.bills.map billContent
      ∧ d2.savings.map savingsContent = d.savings.map savingsContent
      ∧ d2.appState.savingsHistory = d.appState.savingsHistory := by
  obtain ⟨sec, hsk, M2, hscan⟩ := scanCSV_generate
    (fun i hi => by simpa using List.all_eq_true.mp hinc i hi)
    (fun b hb => by simpa using List.all_eq_true.mp hbill b hb)
    (fun s hs => by simpa using List.all_eq_true.mp hsav s hs)
    (fun e he => by simpa using List.all_eq_true.mp hhist e he)
    hfmt
  have hmapne : d.income.map reimportIncome ≠ [] := by
    intro habs
    exact hne (by simpa using habs)
  refine ⟨⟨d.income.map reimportIncome, d.bills.map reimportBill,
    d.savings.map reimportSavings,
    ⟨if M2 = [] then now else M2, vs, true, d.appState.savingsHistory⟩⟩,
    ?_, ?_, ?_, ?_, rfl⟩
  · simp only [parseCSV, hscan]
    rw [if_neg hmapne]
  · rw [List.map_map]
    exact List.map_congr_left (fun i _ => rfl)
  · rw [List.map_map]
    exact List.map_congr_left (fun b _ => rfl)
  · rw [List.map_map]
    exact List.map_congr_left (fun s _ => rfl)

set_option maxRecDepth 20000 in
theorem csv_round_trip_witness :
    ∃ d2 : AppData,
      parseCSV (str "2025-01") (str "v1") (generateCSV fmtDec exRoundTripData)
        = some d2
      ∧ d2.income.map incomeContent = exRoundTripData.income.map incomeContent
      ∧ d2.bills.map billContent = exRoundTripData.bills.map billContent
      ∧ d2.savings.map savingsContent = exRoundTripData.savings.map savingsContent
      ∧ d2.appState.savingsHistory = exRoundTripData.appState.savingsHistory :=
  csv_round_trip (str "2025-01") (str "v1") fmtDec exRoundTripData
    (by with_unfolding_all rfl) (by with_unfolding_all rfl)
    (by with_unfolding_all rfl) (by with_unfolding_all rfl)
    (by with_unfolding_all rfl) (by simp [exRoundTripData])

end MoneyForNothing
